import Mathlib

/-!
Verification of the CISO encoder in `ciso.py` (stellar-cso).

The encoder is embedded shallowly: file contents are `List Nat` (one `Nat`
per byte), the LZ4 block compressor is an arbitrary function parameter
`compress : List Nat → List Nat`, writes append to the in-memory contents of
the output volumes, and the per-block loop of `compress_iso` becomes a fold
of a step function over the list of 2048-byte source blocks.
-/

namespace Ciso

/-- Magic constant `CISO_MAGIC = 0x4F534943` from ciso.py. -/
def CISO_MAGIC : Nat := 0x4F534943

/-- Header size `CISO_HEADER_SIZE = 0x18` (24 bytes) from ciso.py. -/
def CISO_HEADER_SIZE : Nat := 0x18

/-- Block size `CISO_BLOCK_SIZE = 0x800` (2048 bytes) from ciso.py. -/
def CISO_BLOCK_SIZE : Nat := 0x800

/-- Split threshold: the literal `0xFFBF6000` in `compress_iso`
(`if write_pos > 0xFFBF6000`). -/
def SPLIT_LIMIT : Nat := 0xFFBF6000

/-- Alignment exponent: `ciso['align'] = 2` set in `check_file_size`. -/
def CISO_ALIGN : Nat := 2

/-- Mirrors `align_b = 1 << ciso['align']`. -/
def align_b : Nat := 1 <<< CISO_ALIGN

/-- Mirrors `align_m = align_b - 1`. -/
def align_m : Nat := align_b - 1

/-- Little-endian byte encoding of a 32-bit value, as `struct.pack('<I', x)`
and the `L` fields of `'<LLQLBBxx'`.  Faithful for `x < 2^32`
(`struct.pack` raises beyond that; the encoder never produces such values). -/
def u32le (x : Nat) : List Nat :=
  [x % 256, x / 256 % 256, x / 65536 % 256, x / 16777216 % 256]

/-- Little-endian byte encoding of a 64-bit value, as the `Q` field of
`'<LLQLBBxx'`.  Faithful for `x < 2^64`. -/
def u64le (x : Nat) : List Nat :=
  [x % 256, x / 256 % 256, x / 65536 % 256, x / 16777216 % 256,
   x / 4294967296 % 256, x / 1099511627776 % 256,
   x / 281474976710656 % 256, x / 72057594037927936 % 256]

/-- Bytes written by `write_cso_header`: `struct.pack('<LLQLBBxx', magic,
CISO_HEADER_SIZE, total_bytes, block_size, ver, align)` with `ver = 2` and
`align = 2` (the values `check_file_size` puts in the dict); `xx` pads with
two zero bytes. -/
def write_cso_header (total_bytes : Nat) : List Nat :=
  u32le CISO_MAGIC ++ u32le CISO_HEADER_SIZE ++ u64le total_bytes ++
    u32le CISO_BLOCK_SIZE ++ [2, 2, 0, 0]

/-- Bytes written by `write_block_index`: each entry packed as `'<I'`. -/
def indexBytes (blockIndex : List Nat) : List Nat :=
  blockIndex.flatMap u32le

/-- Result of `check_file_size`: the `ciso` dict. -/
structure CisoInfo where
  magic : Nat
  ver : Nat
  block_size : Nat
  total_bytes : Nat
  total_blocks : Nat
  align : Nat

/-- Mirrors `check_file_size`: `total_bytes = file_size - image_offset` and
`total_blocks = int(file_size / CISO_BLOCK_SIZE)` computed on `total_bytes`.
Python's `int(a / 2048)` uses float division; dividing by the power of two
`2048` is exact for every size below `2^53` bytes, so it is embedded as
truncating natural division. -/
def check_file_size (fileSize imageOffset : Nat) : CisoInfo :=
  { magic := CISO_MAGIC
    ver := 2
    block_size := CISO_BLOCK_SIZE
    total_bytes := fileSize - imageOffset
    total_blocks := (fileSize - imageOffset) / CISO_BLOCK_SIZE
    align := CISO_ALIGN }

/-- Reading `n` bytes at absolute position `pos` (a `seek` followed by
`read(n)`; a read past end of file returns the available bytes). -/
def readBytes (data : List Nat) (pos n : Nat) : List Nat :=
  (data.drop pos).take n

/-- ASCII bytes of `b"MICROSOFT*XBOX*MEDIA"`. -/
def mediaMagic : List Nat :=
  [77, 73, 67, 82, 79, 83, 79, 70, 84, 42, 88, 66, 79, 88, 42, 77, 69, 68, 73, 65]

/-- Mirrors `detect_iso_type`: 20 bytes at `0x18310000` equal to the magic
give image offset `0x18300000` (REDUMP); 20 bytes at `0x10000` give offset
`0`; otherwise the script prints an error and exits (`none`). -/
def detect_iso_type (data : List Nat) : Option Nat :=
  if readBytes data 0x18310000 20 = mediaMagic then some 0x18300000
  else if readBytes data 0x10000 20 = mediaMagic then some 0
  else none

/-- Mirrors `pad_file_size`: append `0x400 - (size & 0x3FF)` zero bytes to
the end of the file (when the size is already a multiple of `0x400` this
appends a full `0x400` zero bytes). -/
def pad_file_size (content : List Nat) : List Nat :=
  content ++ List.replicate (0x400 - (content.length &&& 0x3FF)) 0

/-- Block `i` of the source: `fin` is positioned at `image_offset` and the
loop reads `block_size` bytes per iteration, so iteration `i` reads the
bytes at `[off + 2048*i, off + 2048*(i+1))`. -/
def readBlock (data : List Nat) (off i : Nat) : List Nat :=
  (data.drop (off + CISO_BLOCK_SIZE * i)).take CISO_BLOCK_SIZE

/-- The sequence of source blocks the encode loop reads:
`for block in range(0, ciso['total_blocks'])`. -/
def blocksOf (data : List Nat) (off : Nat) : List (List Nat) :=
  (List.range ((data.length - off) / CISO_BLOCK_SIZE)).map (readBlock data off)

/-- Output volume filename: `os.path.splitext(infile)[0] + '.k.cso'`,
with `stem` standing for `os.path.splitext(infile)[0]`. -/
def cso_name (stem : String) (k : Nat) : String :=
  stem ++ "." ++ toString k ++ ".cso"

/-- Specification instrumentation: one record per processed block, noting
the volume instance the block's payload was written to (`inc = 0` is the
first volume `.1.cso`; `inc = j > 0` is the volume opened by the `j`-th
execution of the split branch), the byte offset `off` of the payload inside
that volume, the compressed flag, the payload bytes actually written and the
raw source bytes.  These records repeat information the loop computes; they
do not influence any other state field. -/
structure BlockRec where
  inc : Nat
  off : Nat
  flag : Bool
  payload : List Nat
  raw : List Nat

/-- Encoder state at the top of the `for block in range(...)` loop. -/
structure EncSt where
  /-- contents of the first volume `.1.cso` (`fout_1`) -/
  vol1 : List Nat
  /-- contents of `.2.cso` once created (`fout_2`, `none` while unset) -/
  vol2 : Option (List Nat)
  /-- `fout_1` handle open -/
  vol1Open : Bool
  /-- current `fout_2` handle open -/
  vol2Open : Bool
  /-- log of names passed to `open(..., 'wb')`, in order -/
  opened : List String
  /-- number of executions of the split branch -/
  splitCount : Nat
  /-- `write_pos` -/
  writePos : Nat
  /-- the loop variable `block` -/
  counter : Nat
  /-- `block_index` -/
  blockIndex : List Nat
  /-- instrumentation, see `BlockRec` -/
  recs : List BlockRec

/-- A write to `split_fout` (`fout_1` before the first split, the current
`fout_2` after), advancing `write_pos` by the number of bytes written. -/
def writeCur (s : EncSt) (bs : List Nat) : EncSt :=
  if s.splitCount = 0 then
    { s with vol1 := s.vol1 ++ bs, writePos := s.writePos + bs.length }
  else
    { s with vol2 := s.vol2.map (· ++ bs), writePos := s.writePos + bs.length }

/-- Lines 149-155: `if write_pos > 0xFFBF6000`, open
`splitext(infile)[0] + '.2.cso'` in mode `'wb'` (creating or truncating it),
point `split_fout` at it and reset `write_pos` to 0.  `fout_1` is not
closed here. -/
def splitCheck (stem : String) (s : EncSt) : EncSt :=
  if s.writePos > SPLIT_LIMIT then
    { s with vol2 := some []
             vol2Open := true
             opened := s.opened ++ [cso_name stem 2]
             splitCount := s.splitCount + 1
             writePos := 0 }
  else s

/-- Lines 157-162: `align = write_pos & align_m`; if nonzero, write
`align_b - align` bytes from the zero `alignment_buffer`. -/
def alignPad (s : EncSt) : EncSt :=
  let a := s.writePos &&& align_m
  if a ≠ 0 then writeCur s (List.replicate (align_b - a) 0) else s

/-- The store-versus-compress decision of lines 181-195: the block is
compressed exactly when `(compressed_size + 12) >= raw_data_size` fails. -/
def blockFlag (compress : List Nat → List Nat) (raw : List Nat) : Bool :=
  ¬ ((compress raw).length + 12 ≥ raw.length)

/-- `writable_data`: the compressed bytes when the flag is set, the raw
bytes otherwise. -/
def blockData (compress : List Nat → List Nat) (raw : List Nat) : List Nat :=
  if blockFlag compress raw then compress raw else raw

/-- The index entry for a block at byte offset `off`:
`write_pos >> ciso['align']`, or-ed with the `0x80000000` marker when the
block is compressed. -/
def blockEntry (compress : List Nat → List Nat) (raw : List Nat)
    (off : Nat) : Nat :=
  if blockFlag compress raw then (off >>> CISO_ALIGN) ||| 0x80000000
  else off >>> CISO_ALIGN

/-- Lines 164-198: record `block_index[block] = write_pos >> align` (with the
compressed marker or-ed in), write the chosen bytes, advance `write_pos` and
move to the next block. -/
def writeBlock (compress : List Nat → List Nat) (s : EncSt) (raw : List Nat) : EncSt :=
  let s1 := { s with blockIndex :=
      s.blockIndex.set s.counter (blockEntry compress raw s.writePos) }
  let s2 := writeCur s1 (blockData compress raw)
  { s2 with counter := s2.counter + 1
            recs := s2.recs ++
              [⟨s2.splitCount, s.writePos, blockFlag compress raw,
                blockData compress raw, raw⟩] }

/-- One iteration of the encode loop. -/
def encStep (compress : List Nat → List Nat) (stem : String) (s : EncSt)
    (raw : List Nat) : EncSt :=
  writeBlock compress (alignPad (splitCheck stem s)) raw

/-- The encode loop over a list of source blocks. -/
def encLoop (compress : List Nat → List Nat) (stem : String)
    (blocks : List (List Nat)) (s : EncSt) : EncSt :=
  blocks.foldl (encStep compress stem) s

/-- State before the loop: `fout_1` has been opened, the header and the
all-zero dummy index have been written to it, and
`write_pos = fout_1.tell()`. -/
def initSt (stem : String) (tb n : Nat) : EncSt :=
  { vol1 := write_cso_header tb ++ indexBytes (List.replicate (n + 1) 0)
    vol2 := none
    vol1Open := true
    vol2Open := false
    opened := [cso_name stem 1]
    splitCount := 0
    writePos := (write_cso_header tb ++ indexBytes (List.replicate (n + 1) 0)).length
    counter := 0
    blockIndex := List.replicate (n + 1) 0
    recs := [] }

/-- Encoder state at the top of iteration `k` of the loop (the first `k`
blocks processed). -/
def loopState (compress : List Nat → List Nat) (stem : String)
    (data : List Nat) (off k : Nat) : EncSt :=
  encLoop compress stem ((blocksOf data off).take k)
    (initSt stem (data.length - off) ((data.length - off) / CISO_BLOCK_SIZE))

/-- Loop output: all blocks processed. -/
def loopOut (compress : List Nat → List Nat) (stem : String)
    (data : List Nat) (off : Nat) : EncSt :=
  encLoop compress stem (blocksOf data off)
    (initSt stem (data.length - off) ((data.length - off) / CISO_BLOCK_SIZE))

/-- Lines 209-216: set the trailing sentinel entry
`block_index[-1] = write_pos >> align`, then seek `fout_1` to
`CISO_HEADER_SIZE` and rewrite the whole index there. -/
def postLoop (n : Nat) (s : EncSt) : EncSt :=
  let s := { s with blockIndex := s.blockIndex.set n (s.writePos >>> CISO_ALIGN) }
  { s with vol1 := s.vol1.take CISO_HEADER_SIZE ++ indexBytes s.blockIndex ++
                     s.vol1.drop (CISO_HEADER_SIZE + 4 * (n + 1)) }

/-- Lines 219-224: pad and close `fout_1`; if `fout_2` was created, pad and
close it as well. -/
def finalizeVols (s : EncSt) : EncSt :=
  { s with vol1 := pad_file_size s.vol1
           vol2 := s.vol2.map pad_file_size
           vol1Open := false
           vol2Open := false }

/-- The whole pipeline after a successful ISO-type detection returning
image offset `off`. -/
def encodeRun (compress : List Nat → List Nat) (stem : String)
    (data : List Nat) (off : Nat) : EncSt :=
  finalizeVols (postLoop ((data.length - off) / CISO_BLOCK_SIZE)
    (loopOut compress stem data off))

/-- State of the output at the `sys.exit(1)` abort inside
`detect_iso_type`: whether `.1.cso` exists, and its contents. -/
structure AbortSt where
  vol1Created : Bool
  vol1 : List Nat

/-- Mirrors `compress_iso`: `fout_1 = open(splitext(infile)[0] + '.1.cso',
'wb')` runs first (creating/truncating that file), then the source is opened
and `detect_iso_type` runs; on detection failure the script exits with the
(empty) first volume already created.  Otherwise the encode pipeline runs to
completion. -/
def compress_iso (compress : List Nat → List Nat) (stem : String)
    (data : List Nat) : Except AbortSt EncSt :=
  match detect_iso_type data with
  | none => .error ⟨true, []⟩
  | some off => .ok (encodeRun compress stem data off)

/-- Modelled from the spec: no decoder exists in this repository.  Decoding
one block per the spec and claim wording: mask the `0x80000000` flag bit
from the index entry, left-shift the remaining 31 bits by the align shift to
get the byte offset inside the block's volume, read the stored payload
there, and decompress it when the flag bit is set. -/
def decodeBlock (vol : List Nat) (entry len : Nat)
    (decompress : List Nat → List Nat) : List Nat :=
  let off := (entry &&& 0x7FFFFFFF) <<< CISO_ALIGN
  let payload := (vol.drop off).take len
  if entry &&& 0x80000000 ≠ 0 then decompress payload else payload

/-- Contents of the volume `split_fout` currently points at. -/
def curContent (s : EncSt) : List Nat :=
  if s.splitCount = 0 then s.vol1 else s.vol2.getD []

/-- Size of the header plus index footprint at the start of the first
volume. -/
def hdrFoot (n : Nat) : Nat := CISO_HEADER_SIZE + 4 * (n + 1)

/-- Value of a little-endian byte sequence. -/
def leVal (l : List Nat) : Nat :=
  l.foldr (fun b acc => b + 256 * acc) 0

/-- The block index segment produced by a run of consecutive stored
2048-byte blocks starting at loop counter `cstart` and byte position `p`. -/
def idxWrite (bi : List Nat) (cstart p m : Nat) : List Nat :=
  match m with
  | 0 => bi
  | Nat.succ m => idxWrite (bi.set cstart (p >>> CISO_ALIGN)) (cstart + 1) (p + 2048) m

/-- The block records produced by a run of consecutive stored 2048-byte
blocks written to volume instance `inc` starting at byte position `p`. -/
def recsOf (inc p : Nat) (bs : List (List Nat)) : List BlockRec :=
  match bs with
  | [] => []
  | b :: t => ⟨inc, p, false, b, b⟩ :: recsOf inc (p + 2048) t

/-- A 2048-byte block of zero bytes (test vector). -/
def zeroBlock : List Nat := List.replicate 2048 0

/-- A 2048-byte block of `1` bytes (test vector). -/
def oneBlock : List Nat := List.replicate 2048 1

/-- The 2048-byte block holding the XDVDFS magic at file offset `0x10000`
(test vector). -/
def magicBlock : List Nat := mediaMagic ++ List.replicate 2028 0

/-- Index of the block whose iteration performs the first volume split on
the `bigData` test vector. -/
def K1 : Nat := 2086917

/-- Index of the block whose iteration performs the second volume split on
the `bigData` test vector. -/
def K2 : Nat := 4182002

/-- Total number of blocks of the `bigData` test vector. -/
def NBIG : Nat := 4182003

/-- Blocks 0 .. K1-1 of the test vector: zero blocks except the XDVDFS
magic in block 32 (so detection yields image offset 0). -/
def bigS1blocks : List (List Nat) :=
  List.replicate 32 zeroBlock ++ magicBlock :: List.replicate (K1 - 33) zeroBlock

/-- Blocks K1+1 .. K2-1 of the test vector: zero blocks. -/
def bigS2blocks : List (List Nat) :=
  List.replicate (K2 - K1 - 1) zeroBlock

/-- Blocks of a source image large enough to make the encoder split twice:
zero blocks everywhere except the XDVDFS magic in block 32 and a block of
`1` bytes at index `K1` (the first block written to `.2.cso`). -/
def bigBlocks : List (List Nat) :=
  bigS1blocks ++ oneBlock :: (bigS2blocks ++ [zeroBlock])

/-- A source image (roughly 8.5 GB) on which the encoder splits twice,
reopening and truncating `.2.cso` the second time. -/
def bigData : List Nat := bigBlocks.flatten

/-- Initial encoder state of the `bigData` run. -/
def bigInit : EncSt := initSt "g" (2048 * NBIG) NBIG

/-- Byte position of the first payload in the first volume of the `bigData`
run. -/
def P0 : Nat := hdrFoot NBIG

/-- Encoder state of the `bigData` run after blocks 0 .. K1-1 (all stored
in the first volume). -/
def bigStateA : EncSt :=
  { bigInit with
    vol1 := bigInit.vol1 ++ bigS1blocks.flatten
    writePos := P0 + 2048 * K1
    counter := K1
    blockIndex := idxWrite bigInit.blockIndex 0 P0 K1
    recs := recsOf 0 P0 bigS1blocks }

/-- Encoder state of the `bigData` run after block K1 (the first split:
`.2.cso` opened, block K1 stored at its offset 0). -/
def bigStateB : EncSt :=
  { bigStateA with
    vol2 := some oneBlock
    vol2Open := true
    opened := bigStateA.opened ++ [cso_name "g" 2]
    splitCount := 1
    writePos := 2048
    counter := K1 + 1
    blockIndex := bigStateA.blockIndex.set K1 0
    recs := bigStateA.recs ++ [⟨1, 0, false, oneBlock, oneBlock⟩] }

/-- Encoder state of the `bigData` run after blocks K1+1 .. K2-1 (all
stored in the first `.2.cso` instance). -/
def bigStateC : EncSt :=
  { bigStateB with
    vol2 := some (oneBlock ++ bigS2blocks.flatten)
    writePos := 2048 + 2048 * (K2 - K1 - 1)
    counter := K1 + 1 + (K2 - K1 - 1)
    blockIndex := idxWrite bigStateB.blockIndex (K1 + 1) 2048 (K2 - K1 - 1)
    recs := bigStateB.recs ++ recsOf 1 2048 bigS2blocks }

/-- Encoder state of the `bigData` run after block K2 (the second split:
`.2.cso` reopened truncated, destroying blocks K1 .. K2-1, and block K2
stored at its offset 0). -/
def bigStateD : EncSt :=
  { bigStateC with
    vol2 := some zeroBlock
    opened := bigStateC.opened ++ [cso_name "g" 2]
    splitCount := 2
    writePos := 2048
    counter := K1 + 1 + (K2 - K1 - 1) + 1
    blockIndex := bigStateC.blockIndex.set (K1 + 1 + (K2 - K1 - 1)) 0
    recs := bigStateC.recs ++ [⟨2, 0, false, zeroBlock, zeroBlock⟩] }

/-- The index entry a block record corresponds to. -/
def entryOf (r : BlockRec) : Nat :=
  if r.flag then (r.off >>> CISO_ALIGN) ||| 0x80000000 else r.off >>> CISO_ALIGN

/-- Property stated by claim C1 at one loop iteration: writing to the
current volume at the post-alignment cursor, exactly one of stored or
compressed applies, with the corresponding payload, flag bit and cursor
advance. -/
def C1Spec (c : List Nat → List Nat) (stem : String) (s : EncSt)
    (raw : List Nat) : Prop :=
  ((c raw).length + 12 ≥ raw.length →
      blockFlag c raw = false ∧
      blockData c raw = raw ∧
      (encStep c stem s raw).writePos =
        (alignPad (splitCheck stem s)).writePos + raw.length ∧
      Nat.testBit (blockEntry c raw (alignPad (splitCheck stem s)).writePos) 31
        = false) ∧
  ((c raw).length + 12 < raw.length →
      blockFlag c raw = true ∧
      blockData c raw = c raw ∧
      (encStep c stem s raw).writePos =
        (alignPad (splitCheck stem s)).writePos + (c raw).length ∧
      Nat.testBit (blockEntry c raw (alignPad (splitCheck stem s)).writePos) 31
        = true) ∧
  ¬((c raw).length + 12 ≥ raw.length ∧ (c raw).length + 12 < raw.length) ∧
  (blockFlag c raw = true → (c raw).length + 12 < raw.length) ∧
  curContent (encStep c stem s raw) =
    curContent (alignPad (splitCheck stem s)) ++ blockData c raw

/-- Property stated by claim C3: the block count is the floor of
`total_bytes / 2048`, the loop reads exactly that many full blocks, and the
bytes past the last full block are never read (the blocks are unchanged if
the source is truncated right after the last full block). -/
def C3Spec (data : List Nat) (off : Nat) : Prop :=
  (check_file_size data.length off).total_blocks =
      (data.length - off) / CISO_BLOCK_SIZE ∧
  CISO_BLOCK_SIZE * (check_file_size data.length off).total_blocks ≤
      data.length - off ∧
  (blocksOf data off).length = (check_file_size data.length off).total_blocks ∧
  (∀ i, i < (check_file_size data.length off).total_blocks →
      (readBlock data off i).length = CISO_BLOCK_SIZE) ∧
  blocksOf (data.take (off + CISO_BLOCK_SIZE *
      (check_file_size data.length off).total_blocks)) off = blocksOf data off

/-- Property stated by claim C4: recorded offsets are non-decreasing within
each volume instance, and every recorded offset (the index entry with the
flag bit masked, shifted left by the align shift) is the record's byte
offset, a multiple of `1 << align_shift`. -/
def C4Spec (c : List Nat → List Nat) (stem : String) (data : List Nat)
    (off : Nat) : Prop :=
  (∀ i j (hi : i < (encodeRun c stem data off).recs.length)
      (hj : j < (encodeRun c stem data off).recs.length), i ≤ j →
      ((encodeRun c stem data off).recs.get ⟨i, hi⟩).inc =
        ((encodeRun c stem data off).recs.get ⟨j, hj⟩).inc →
      ((encodeRun c stem data off).recs.get ⟨i, hi⟩).off ≤
        ((encodeRun c stem data off).recs.get ⟨j, hj⟩).off) ∧
  (∀ i (hi : i < (encodeRun c stem data off).recs.length),
      ((encodeRun c stem data off).recs.get ⟨i, hi⟩).off % (1 <<< CISO_ALIGN)
          = 0 ∧
      ((encodeRun c stem data off).blockIndex.getD i 0 &&& 0x7FFFFFFF) <<<
          CISO_ALIGN = ((encodeRun c stem data off).recs.get ⟨i, hi⟩).off)

/-- Property stated by claim C8: the header is exactly 24 little-endian
bytes laid out as magic (u32), header_size (u32 = 24), total_bytes (u64),
block_size (u32 = 2048), version byte 2, align byte 2 and two reserved zero
bytes; it sits at the start of the first volume, immediately followed by the
`4 * (total_blocks + 1)`-byte index that the finalize pass rewrote in place. -/
def C8Spec (c : List Nat → List Nat) (stem : String) (data : List Nat)
    (off : Nat) : Prop :=
  (write_cso_header (data.length - off)).length = 24 ∧
  (encodeRun c stem data off).vol1.take 24 =
      write_cso_header (data.length - off) ∧
  leVal ((write_cso_header (data.length - off)).take 4) = CISO_MAGIC ∧
  leVal (((write_cso_header (data.length - off)).drop 4).take 4) =
      CISO_HEADER_SIZE ∧
  leVal (((write_cso_header (data.length - off)).drop 8).take 8) =
      data.length - off ∧
  leVal (((write_cso_header (data.length - off)).drop 16).take 4) =
      CISO_BLOCK_SIZE ∧
  (write_cso_header (data.length - off)).drop 20 = [2, 2, 0, 0] ∧
  ((encodeRun c stem data off).vol1.drop CISO_HEADER_SIZE).take
      (4 * ((data.length - off) / CISO_BLOCK_SIZE + 1)) =
      indexBytes (encodeRun c stem data off).blockIndex ∧
  (indexBytes (encodeRun c stem data off).blockIndex).length =
      4 * ((data.length - off) / CISO_BLOCK_SIZE + 1) ∧
  hdrFoot ((data.length - off) / CISO_BLOCK_SIZE) ≤
      (encodeRun c stem data off).vol1.length

/-- Property stated by claim C10: at most the two names `stem.1.cso` and
`stem.2.cso` are ever opened, and whenever the cursor exceeds the split
threshold at the top of an iteration (including after the first split) the
same `stem.2.cso` path is reopened truncated with the cursor reset to 0. -/
def C10Spec (c : List Nat → List Nat) (stem : String) (data : List Nat)
    (off k : Nat) (s : EncSt) : Prop :=
  ((loopState c stem data off k).opened = cso_name stem 1 ::
      List.replicate (loopState c stem data off k).splitCount
        (cso_name stem 2)) ∧
  (∀ x ∈ (loopState c stem data off k).opened,
      x = cso_name stem 1 ∨ x = cso_name stem 2) ∧
  ((encodeRun c stem data off).opened = cso_name stem 1 ::
      List.replicate (encodeRun c stem data off).splitCount
        (cso_name stem 2)) ∧
  (s.writePos > SPLIT_LIMIT →
      splitCheck stem s =
        { s with vol2 := some []
                 vol2Open := true
                 opened := s.opened ++ [cso_name stem 2]
                 splitCount := s.splitCount + 1
                 writePos := 0 })

/-- Property stated by the amended claim C5: on an iteration whose cursor
exceeds the split threshold, the encoder opens `stem.2.cso` (truncating),
resets the cursor to 0, records the block at offset 0 of the new volume —
and leaves the first volume's handle open. -/
def C5Spec (c : List Nat → List Nat) (stem : String) (s : EncSt)
    (raw : List Nat) : Prop :=
  splitCheck stem s =
    { s with vol2 := some []
             vol2Open := true
             opened := s.opened ++ [cso_name stem 2]
             splitCount := s.splitCount + 1
             writePos := 0 } ∧
  (encStep c stem s raw).recs = s.recs ++
    [⟨s.splitCount + 1, 0, blockFlag c raw, blockData c raw, raw⟩] ∧
  (encStep c stem s raw).vol1Open = s.vol1Open ∧
  (encStep c stem s raw).opened = s.opened ++ [cso_name stem 2] ∧
  (encStep c stem s raw).writePos = (blockData c raw).length ∧
  (encStep c stem s raw).vol2 = some (blockData c raw)

/-- Well-formedness of one block record with respect to the current encoder
state. -/
structure RecOK (compress : List Nat → List Nat) (n : Nat) (s : EncSt)
    (r : BlockRec) : Prop where
  off_mod : r.off % 4 = 0
  off_le : r.off ≤ SPLIT_LIMIT + 3
  flag_eq : r.flag = decide ((compress r.raw).length + 12 < r.raw.length)
  payload_eq : r.payload = if r.flag then compress r.raw else r.raw
  inc_le : r.inc ≤ s.splitCount
  in_vol1 : r.inc = 0 → hdrFoot n ≤ r.off ∧
      r.off + r.payload.length ≤ s.vol1.length ∧
      (s.vol1.drop r.off).take r.payload.length = r.payload
  in_vol2 : 0 < r.inc → r.inc = s.splitCount →
      r.off + r.payload.length ≤ (s.vol2.getD []).length ∧
      ((s.vol2.getD []).drop r.off).take r.payload.length = r.payload
  below_pos : r.inc = s.splitCount → r.off + r.payload.length ≤ s.writePos

/-- The loop invariant of the encode pass. -/
structure Inv (compress : List Nat → List Nat) (stem : String) (tb n : Nat)
    (s : EncSt) : Prop where
  open1 : s.vol1Open = true
  open2 : s.vol2Open = decide (0 < s.splitCount)
  opened_eq : s.opened = cso_name stem 1 ::
      List.replicate s.splitCount (cso_name stem 2)
  vol1_pre : ∃ t, s.vol1 =
      (write_cso_header tb ++ indexBytes (List.replicate (n + 1) 0)) ++ t
  pos0 : s.splitCount = 0 → s.vol2 = none ∧ s.writePos = s.vol1.length
  pos1 : 0 < s.splitCount → ∃ v, s.vol2 = some v ∧ s.writePos = v.length
  vol1_len : hdrFoot n ≤ s.vol1.length
  counter_eq : s.counter = s.recs.length
  cnt_le : s.recs.length ≤ n
  idx_len : s.blockIndex.length = n + 1
  recs_ok : ∀ k (hk : k < s.recs.length),
      RecOK compress n s (s.recs.get ⟨k, hk⟩)
  idx_rec : ∀ k (hk : k < s.recs.length),
      s.blockIndex.getD k 0 = entryOf (s.recs.get ⟨k, hk⟩)
  mono : ∀ k k' (hk : k < s.recs.length) (hk' : k' < s.recs.length),
      k < k' → (s.recs.get ⟨k, hk⟩).inc = (s.recs.get ⟨k', hk'⟩).inc →
      (s.recs.get ⟨k, hk⟩).off + (s.recs.get ⟨k, hk⟩).payload.length ≤
        (s.recs.get ⟨k', hk'⟩).off

end Ciso

namespace Ciso

/-! Basic numeric facts about the constants and the bit operations the
encoder uses. -/

theorem align_b_eq : align_b = 4 := by decide

theorem align_m_eq : align_m = 3 := by decide

theorem shr2 (a : Nat) : a >>> CISO_ALIGN = a / 4 := by
  have h := Nat.shiftRight_eq_div_pow a 2
  simpa [CISO_ALIGN] using h

theorem shl2 (a : Nat) : a <<< CISO_ALIGN = a * 4 := by
  have h := Nat.shiftLeft_eq a 2
  simpa [CISO_ALIGN] using h

theorem and3_mod (a : Nat) : a &&& align_m = a % 4 := by
  have h := Nat.and_pow_two_sub_one_eq_mod a 2
  rw [align_m_eq]
  simpa using h

theorem and1023_mod (a : Nat) : a &&& 0x3FF = a % 1024 := by
  have h := Nat.and_pow_two_sub_one_eq_mod a 10
  simpa using h

theorem stored_entry_mask (a : Nat) (h : a < 2147483648) :
    a &&& 0x7FFFFFFF = a := by
  have e : (0x7FFFFFFF : Nat) = 2 ^ 31 - 1 := by norm_num
  rw [e, Nat.and_pow_two_sub_one_eq_mod]
  exact Nat.mod_eq_of_lt (by norm_num; exact h)

theorem stored_entry_flag (a : Nat) (h : a < 2147483648) :
    a &&& 0x80000000 = 0 := by
  have e : (0x80000000 : Nat) = 2 ^ 31 := by norm_num
  rw [e, Nat.and_two_pow, Nat.testBit_lt_two_pow (by norm_num; exact h)]
  simp

theorem flagged_entry_mask (a : Nat) (h : a < 2147483648) :
    (a ||| 0x80000000) &&& 0x7FFFFFFF = a := by
  rw [Nat.and_distrib_right, stored_entry_mask a h]
  have e : (0x80000000 : Nat) &&& 0x7FFFFFFF = 0 := by decide
  rw [e, Nat.or_zero]

theorem flagged_entry_flag (a : Nat) :
    (a ||| 0x80000000) &&& 0x80000000 ≠ 0 := by
  rw [Nat.and_distrib_right, Nat.and_self]
  intro h0
  have h31 := congrArg (fun x => Nat.testBit x 31) h0
  simp only [Nat.testBit_or] at h31
  have e : Nat.testBit 0x80000000 31 = true := by decide
  rw [e] at h31
  simp at h31

/-! Length and slicing facts. -/

theorem u32le_length (x : Nat) : (u32le x).length = 4 := by
  simp [u32le]

theorem u64le_length (x : Nat) : (u64le x).length = 8 := by
  simp [u64le]

theorem write_cso_header_length (tb : Nat) : (write_cso_header tb).length = 24 := by
  simp [write_cso_header, u32le, u64le]

theorem indexBytes_length (l : List Nat) : (indexBytes l).length = 4 * l.length := by
  induction l with
  | nil => rfl
  | cons x t ih =>
    simp only [indexBytes, List.flatMap_cons, List.length_append] at ih ⊢
    simp [u32le, ih]
    omega

theorem initSt_vol1_length (stem : String) (tb n : Nat) :
    (initSt stem tb n).vol1.length = hdrFoot n := by
  simp [initSt, hdrFoot, write_cso_header_length, indexBytes_length,
    CISO_HEADER_SIZE]

theorem initSt_writePos (stem : String) (tb n : Nat) :
    (initSt stem tb n).writePos = hdrFoot n := by
  simp [initSt, hdrFoot, write_cso_header_length, indexBytes_length,
    CISO_HEADER_SIZE]

theorem initSt_recs (stem : String) (tb n : Nat) :
    (initSt stem tb n).recs = [] := rfl

theorem initSt_splitCount (stem : String) (tb n : Nat) :
    (initSt stem tb n).splitCount = 0 := rfl

theorem slice_append {α : Type} (a b : List α) (o l : Nat)
    (h : o + l ≤ a.length) :
    ((a ++ b).drop o).take l = (a.drop o).take l := by
  rw [List.drop_append_of_le_length (by omega)]
  rw [List.take_append_of_le_length (by simp; omega)]

theorem slice_at_end {α : Type} (v p : List α) :
    ((v ++ p).drop v.length).take p.length = p := by
  rw [List.drop_left]
  exact List.take_of_length_le (Nat.le_refl _)

theorem pad_file_size_append (c : List Nat) :
    pad_file_size c = c ++ List.replicate (1024 - c.length % 1024) 0 := by
  simp [pad_file_size, and1023_mod]

theorem pad_file_size_mod (c : List Nat) :
    (pad_file_size c).length % 1024 = 0 := by
  rw [pad_file_size_append]
  simp only [List.length_append, List.length_replicate]
  omega

theorem pad_file_size_bounds (c : List Nat) :
    0 < 1024 - c.length % 1024 ∧ 1024 - c.length % 1024 ≤ 1024 := by
  omega

/-! Facts about the phases of one loop iteration. -/

theorem writeCur_writePos (s : EncSt) (bs : List Nat) :
    (writeCur s bs).writePos = s.writePos + bs.length := by
  unfold writeCur
  split <;> rfl

theorem splitCheck_writePos_le (stem : String) (s : EncSt) :
    (splitCheck stem s).writePos ≤ SPLIT_LIMIT := by
  unfold splitCheck
  split
  · exact Nat.zero_le _
  · omega

theorem alignPad_writePos_mod (s : EncSt) : (alignPad s).writePos % 4 = 0 := by
  unfold alignPad
  simp only [and3_mod]
  split
  · rw [writeCur_writePos]
    simp only [List.length_replicate, align_b_eq]
    omega
  · omega

theorem alignPad_writePos_le (s : EncSt) :
    (alignPad s).writePos ≤ s.writePos + 3 := by
  unfold alignPad
  simp only [and3_mod]
  split
  · rw [writeCur_writePos]
    simp only [List.length_replicate, align_b_eq]
    omega
  · omega

theorem blockFlag_iff (c : List Nat → List Nat) (raw : List Nat) :
    blockFlag c raw = decide ((c raw).length + 12 < raw.length) := by
  unfold blockFlag
  exact decide_eq_decide.mpr Nat.not_le

/-! Preservation of the loop invariant by the phases of one iteration. -/

theorem inv_writeCur (c : List Nat → List Nat) (stem : String) (tb n : Nat)
    (s : EncSt) (bs : List Nat) (hInv : Inv c stem tb n s) :
    Inv c stem tb n (writeCur s bs) := by
  unfold writeCur
  split
  case isTrue h0 =>
    obtain ⟨t, ht⟩ := hInv.vol1_pre
    constructor
    case open1 => exact hInv.open1
    case open2 => exact hInv.open2
    case opened_eq => exact hInv.opened_eq
    case vol1_pre =>
      exact ⟨t ++ bs, by dsimp only; rw [ht, List.append_assoc]⟩
    case pos0 =>
      intro _
      refine ⟨(hInv.pos0 h0).1, ?_⟩
      dsimp only
      rw [(hInv.pos0 h0).2]
      simp
    case pos1 =>
      intro hc
      have hc' : 0 < s.splitCount := hc
      exact (by omega : False).elim
    case vol1_len =>
      have h1 := hInv.vol1_len
      dsimp only
      simp only [List.length_append]
      omega
    case counter_eq => exact hInv.counter_eq
    case cnt_le => exact hInv.cnt_le
    case idx_len => exact hInv.idx_len
    case recs_ok =>
      intro k hk
      have hk' : k < s.recs.length := hk
      have hr := hInv.recs_ok k hk'
      constructor
      case off_mod => exact hr.off_mod
      case off_le => exact hr.off_le
      case flag_eq => exact hr.flag_eq
      case payload_eq => exact hr.payload_eq
      case inc_le => exact hr.inc_le
      case in_vol1 =>
        intro hi
        obtain ⟨ha, hb, hc2⟩ := hr.in_vol1 hi
        refine ⟨ha, ?_, ?_⟩
        · dsimp only
          simp only [List.length_append]
          omega
        · dsimp only
          rw [slice_append _ _ _ _ hb]
          exact hc2
      case in_vol2 =>
        intro h1 h2
        have h1' : 0 < (s.recs.get ⟨k, hk'⟩).inc := h1
        have h2' : (s.recs.get ⟨k, hk'⟩).inc = s.splitCount := h2
        exact (by omega : False).elim
      case below_pos =>
        intro hi
        have hb := hr.below_pos hi
        dsimp only
        omega
    case idx_rec => exact hInv.idx_rec
    case mono => exact hInv.mono
  case isFalse h0 =>
    have hc0 : 0 < s.splitCount := Nat.pos_of_ne_zero h0
    obtain ⟨v, hv, hl⟩ := hInv.pos1 hc0
    constructor
    case open1 => exact hInv.open1
    case open2 => exact hInv.open2
    case opened_eq => exact hInv.opened_eq
    case vol1_pre => exact hInv.vol1_pre
    case pos0 =>
      intro h
      exact absurd h h0
    case pos1 =>
      intro _
      refine ⟨v ++ bs, ?_, ?_⟩
      · dsimp only
        rw [hv]
        rfl
      · dsimp only
        rw [hl]
        simp
    case vol1_len => exact hInv.vol1_len
    case counter_eq => exact hInv.counter_eq
    case cnt_le => exact hInv.cnt_le
    case idx_len => exact hInv.idx_len
    case recs_ok =>
      intro k hk
      have hk' : k < s.recs.length := hk
      have hr := hInv.recs_ok k hk'
      constructor
      case off_mod => exact hr.off_mod
      case off_le => exact hr.off_le
      case flag_eq => exact hr.flag_eq
      case payload_eq => exact hr.payload_eq
      case inc_le => exact hr.inc_le
      case in_vol1 => exact hr.in_vol1
      case in_vol2 =>
        intro h1 h2
        have h2' : (s.recs.get ⟨k, hk'⟩).inc = s.splitCount := h2
        obtain ⟨hb, hsl⟩ := hr.in_vol2 h1 h2'
        rw [hv] at hb hsl
        simp only [Option.getD_some] at hb hsl
        dsimp only
        rw [hv]
        simp only [Option.map_some', Option.getD_some]
        refine ⟨by simp only [List.length_append]; omega, ?_⟩
        rw [slice_append _ _ _ _ hb]
        exact hsl
      case below_pos =>
        intro hi
        have hb := hr.below_pos hi
        dsimp only
        omega
    case idx_rec => exact hInv.idx_rec
    case mono => exact hInv.mono

theorem inv_splitCheck (c : List Nat → List Nat) (stem : String) (tb n : Nat)
    (s : EncSt) (hInv : Inv c stem tb n s) :
    Inv c stem tb n (splitCheck stem s) := by
  unfold splitCheck
  split
  case isTrue hT =>
    constructor
    case open1 => exact hInv.open1
    case open2 =>
      dsimp only
      simp
    case opened_eq =>
      dsimp only
      rw [hInv.opened_eq, List.replicate_succ']
      simp
    case vol1_pre => exact hInv.vol1_pre
    case pos0 =>
      intro h
      exact absurd h (Nat.succ_ne_zero _)
    case pos1 =>
      intro _
      exact ⟨[], rfl, rfl⟩
    case vol1_len => exact hInv.vol1_len
    case counter_eq => exact hInv.counter_eq
    case cnt_le => exact hInv.cnt_le
    case idx_len => exact hInv.idx_len
    case recs_ok =>
      intro k hk
      have hk' : k < s.recs.length := hk
      have hr := hInv.recs_ok k hk'
      have hle := hr.inc_le
      constructor
      case off_mod => exact hr.off_mod
      case off_le => exact hr.off_le
      case flag_eq => exact hr.flag_eq
      case payload_eq => exact hr.payload_eq
      case inc_le => exact Nat.le_succ_of_le hr.inc_le
      case in_vol1 => exact hr.in_vol1
      case in_vol2 =>
        intro _ h2
        have h2' : (s.recs.get ⟨k, hk'⟩).inc = s.splitCount + 1 := h2
        exact (by omega : False).elim
      case below_pos =>
        intro hi
        have hi' : (s.recs.get ⟨k, hk'⟩).inc = s.splitCount + 1 := hi
        exact (by omega : False).elim
    case idx_rec => exact hInv.idx_rec
    case mono => exact hInv.mono
  case isFalse hT => exact hInv

theorem get_append_lt {α : Type} (l1 l2 : List α) (k : Nat)
    (hk : k < (l1 ++ l2).length) (hlt : k < l1.length) :
    (l1 ++ l2).get ⟨k, hk⟩ = l1.get ⟨k, hlt⟩ := by
  simp only [List.get_eq_getElem]
  exact List.getElem_append_left hlt

theorem get_append_last {α : Type} (l1 : List α) (x : α)
    (hk : l1.length < (l1 ++ [x]).length) :
    (l1 ++ [x]).get ⟨l1.length, hk⟩ = x := by
  simp only [List.get_eq_getElem]
  rw [List.getElem_append_right (Nat.le_refl _)]
  simp

theorem getD_set_ne (l : List Nat) (i k e : Nat) (h : i ≠ k) :
    (l.set i e).getD k 0 = l.getD k 0 := by
  simp [List.getD_eq_getElem?_getD, List.getElem?_set_ne h]

theorem getD_set_self (l : List Nat) (i e : Nat) (h : i < l.length) :
    (l.set i e).getD i 0 = e := by
  simp [List.getD_eq_getElem?_getD, List.getElem?_set_self h]

theorem inv_writeBlock (c : List Nat → List Nat) (stem : String) (tb n : Nat)
    (s : EncSt) (raw : List Nat) (hInv : Inv c stem tb n s)
    (hcnt : s.recs.length < n) (hpos4 : s.writePos % 4 = 0)
    (hposT : s.writePos ≤ SPLIT_LIMIT + 3) :
    Inv c stem tb n (writeBlock c s raw) := by
  unfold writeBlock writeCur
  dsimp only
  split
  case isTrue h0 =>
    obtain ⟨t, ht⟩ := hInv.vol1_pre
    constructor
    case open1 => exact hInv.open1
    case open2 => exact hInv.open2
    case opened_eq => exact hInv.opened_eq
    case vol1_pre =>
      exact ⟨t ++ blockData c raw, by dsimp only; rw [ht, List.append_assoc]⟩
    case pos0 =>
      intro _
      refine ⟨(hInv.pos0 h0).1, ?_⟩
      dsimp only
      rw [(hInv.pos0 h0).2]
      simp
    case pos1 =>
      intro hc
      have hc' : 0 < s.splitCount := hc
      exact (by omega : False).elim
    case vol1_len =>
      have h1 := hInv.vol1_len
      dsimp only
      simp only [List.length_append]
      omega
    case counter_eq =>
      dsimp only
      rw [hInv.counter_eq]
      simp
    case cnt_le =>
      dsimp only
      simp only [List.length_append, List.length_cons, List.length_nil]
      omega
    case idx_len =>
      dsimp only
      rw [List.length_set]
      exact hInv.idx_len
    case recs_ok =>
      intro k hk
      have hk2 : k < s.recs.length + 1 := by
        have := hk
        simp only [List.length_append, List.length_cons, List.length_nil] at this
        omega
      rcases Nat.lt_or_ge k s.recs.length with hlt | hge
      · rw [get_append_lt s.recs _ k hk hlt]
        have hr := hInv.recs_ok k hlt
        constructor
        case off_mod => exact hr.off_mod
        case off_le => exact hr.off_le
        case flag_eq => exact hr.flag_eq
        case payload_eq => exact hr.payload_eq
        case inc_le => exact hr.inc_le
        case in_vol1 =>
          intro hi
          obtain ⟨ha, hb, hc2⟩ := hr.in_vol1 hi
          refine ⟨ha, ?_, ?_⟩
          · dsimp only
            simp only [List.length_append]
            omega
          · dsimp only
            rw [slice_append _ _ _ _ hb]
            exact hc2
        case in_vol2 =>
          intro h1 h2
          have h1' : 0 < (s.recs.get ⟨k, hlt⟩).inc := h1
          have h2' : (s.recs.get ⟨k, hlt⟩).inc = s.splitCount := h2
          exact (by omega : False).elim
        case below_pos =>
          intro hi
          have hb := hr.below_pos hi
          dsimp only
          omega
      · have hkeq : k = s.recs.length := by omega
        subst hkeq
        rw [get_append_last]
        constructor
        case off_mod => exact hpos4
        case off_le => exact hposT
        case flag_eq => exact blockFlag_iff c raw
        case payload_eq => rfl
        case inc_le => exact Nat.le_refl _
        case in_vol1 =>
          intro _
          refine ⟨?_, ?_, ?_⟩
          · dsimp only
            rw [(hInv.pos0 h0).2]
            exact hInv.vol1_len
          · dsimp only
            rw [(hInv.pos0 h0).2]
            simp
          · dsimp only
            rw [(hInv.pos0 h0).2]
            exact slice_at_end s.vol1 (blockData c raw)
        case in_vol2 =>
          intro h1 _
          have h1' : 0 < s.splitCount := h1
          exact (by omega : False).elim
        case below_pos =>
          intro _
          dsimp only
          omega
    case idx_rec =>
      intro k hk
      have hk2 : k < s.recs.length + 1 := by
        have := hk
        simp only [List.length_append, List.length_cons, List.length_nil] at this
        omega
      rcases Nat.lt_or_ge k s.recs.length with hlt | hge
      · rw [get_append_lt s.recs _ k hk hlt]
        dsimp only
        rw [getD_set_ne _ _ _ _ (by rw [hInv.counter_eq]; omega)]
        exact hInv.idx_rec k hlt
      · have hkeq : k = s.recs.length := by omega
        subst hkeq
        rw [get_append_last]
        dsimp only
        rw [hInv.counter_eq, getD_set_self _ _ _ (by rw [hInv.idx_len]; omega)]
        rfl
    case mono =>
      intro k k' hk hk' hkk hinc
      have hk'2 : k' < s.recs.length + 1 := by
        have := hk'
        simp only [List.length_append, List.length_cons, List.length_nil] at this
        omega
      rcases Nat.lt_or_ge k' s.recs.length with hlt' | hge'
      · have hlt : k < s.recs.length := by omega
        rw [get_append_lt s.recs _ k hk hlt] at hinc ⊢
        rw [get_append_lt s.recs _ k' hk' hlt'] at hinc ⊢
        exact hInv.mono k k' hlt hlt' hkk hinc
      · have hkeq : k' = s.recs.length := by omega
        subst hkeq
        have hlt : k < s.recs.length := by omega
        rw [get_append_lt s.recs _ k hk hlt] at hinc ⊢
        rw [get_append_last] at hinc ⊢
        have hr := hInv.recs_ok k hlt
        have hb := hr.below_pos hinc
        exact hb
  case isFalse h0 =>
    have hc0 : 0 < s.splitCount := Nat.pos_of_ne_zero h0
    obtain ⟨v, hv, hl⟩ := hInv.pos1 hc0
    constructor
    case open1 => exact hInv.open1
    case open2 => exact hInv.open2
    case opened_eq => exact hInv.opened_eq
    case vol1_pre => exact hInv.vol1_pre
    case pos0 =>
      intro h
      exact absurd h h0
    case pos1 =>
      intro _
      refine ⟨v ++ blockData c raw, ?_, ?_⟩
      · dsimp only
        rw [hv]
        rfl
      · dsimp only
        rw [hl]
        simp
    case vol1_len => exact hInv.vol1_len
    case counter_eq =>
      dsimp only
      rw [hInv.counter_eq]
      simp
    case cnt_le =>
      dsimp only
      simp only [List.length_append, List.length_cons, List.length_nil]
      omega
    case idx_len =>
      dsimp only
      rw [List.length_set]
      exact hInv.idx_len
    case recs_ok =>
      intro k hk
      have hk2 : k < s.recs.length + 1 := by
        have := hk
        simp only [List.length_append, List.length_cons, List.length_nil] at this
        omega
      rcases Nat.lt_or_ge k s.recs.length with hlt | hge
      · rw [get_append_lt s.recs _ k hk hlt]
        have hr := hInv.recs_ok k hlt
        constructor
        case off_mod => exact hr.off_mod
        case off_le => exact hr.off_le
        case flag_eq => exact hr.flag_eq
        case payload_eq => exact hr.payload_eq
        case inc_le => exact hr.inc_le
        case in_vol1 => exact hr.in_vol1
        case in_vol2 =>
          intro h1 h2
          have h2' : (s.recs.get ⟨k, hlt⟩).inc = s.splitCount := h2
          obtain ⟨hb, hsl⟩ := hr.in_vol2 h1 h2'
          rw [hv] at hb hsl
          simp only [Option.getD_some] at hb hsl
          dsimp only
          rw [hv]
          simp only [Option.map_some', Option.getD_some]
          refine ⟨by simp only [List.length_append]; omega, ?_⟩
          rw [slice_append _ _ _ _ hb]
          exact hsl
        case below_pos =>
          intro hi
          have hb := hr.below_pos hi
          dsimp only
          omega
      · have hkeq : k = s.recs.length := by omega
        subst hkeq
        rw [get_append_last]
        constructor
        case off_mod => exact hpos4
        case off_le => exact hposT
        case flag_eq => exact blockFlag_iff c raw
        case payload_eq => rfl
        case inc_le => exact Nat.le_refl _
        case in_vol1 =>
          intro hi
          have hi' : s.splitCount = 0 := hi
          exact (by omega : False).elim
        case in_vol2 =>
          intro _ _
          dsimp only
          rw [hv]
          simp only [Option.map_some', Option.getD_some]
          rw [hl]
          refine ⟨by simp, ?_⟩
          exact slice_at_end v (blockData c raw)
        case below_pos =>
          intro _
          dsimp only
          omega
    case idx_rec =>
      intro k hk
      have hk2 : k < s.recs.length + 1 := by
        have := hk
        simp only [List.length_append, List.length_cons, List.length_nil] at this
        omega
      rcases Nat.lt_or_ge k s.recs.length with hlt | hge
      · rw [get_append_lt s.recs _ k hk hlt]
        dsimp only
        rw [getD_set_ne _ _ _ _ (by rw [hInv.counter_eq]; omega)]
        exact hInv.idx_rec k hlt
      · have hkeq : k = s.recs.length := by omega
        subst hkeq
        rw [get_append_last]
        dsimp only
        rw [hInv.counter_eq, getD_set_self _ _ _ (by rw [hInv.idx_len]; omega)]
        rfl
    case mono =>
      intro k k' hk hk' hkk hinc
      have hk'2 : k' < s.recs.length + 1 := by
        have := hk'
        simp only [List.length_append, List.length_cons, List.length_nil] at this
        omega
      rcases Nat.lt_or_ge k' s.recs.length with hlt' | hge'
      · have hlt : k < s.recs.length := by omega
        rw [get_append_lt s.recs _ k hk hlt] at hinc ⊢
        rw [get_append_lt s.recs _ k' hk' hlt'] at hinc ⊢
        exact hInv.mono k k' hlt hlt' hkk hinc
      · have hkeq : k' = s.recs.length := by omega
        subst hkeq
        have hlt : k < s.recs.length := by omega
        rw [get_append_lt s.recs _ k hk hlt] at hinc ⊢
        rw [get_append_last] at hinc ⊢
        have hr := hInv.recs_ok k hlt
        exact hr.below_pos hinc

theorem inv_alignPad (c : List Nat → List Nat) (stem : String) (tb n : Nat)
    (s : EncSt) (hInv : Inv c stem tb n s) : Inv c stem tb n (alignPad s) := by
  unfold alignPad
  dsimp only
  split
  · exact inv_writeCur c stem tb n s _ hInv
  · exact hInv

/-! Shape facts about one step. -/

theorem splitCheck_recs (stem : String) (s : EncSt) :
    (splitCheck stem s).recs = s.recs := by
  unfold splitCheck
  split <;> rfl

theorem splitCheck_splitCount_ge (stem : String) (s : EncSt) :
    s.splitCount ≤ (splitCheck stem s).splitCount := by
  unfold splitCheck
  split
  · exact Nat.le_succ _
  · exact Nat.le_refl _

theorem alignPad_recs (s : EncSt) : (alignPad s).recs = s.recs := by
  unfold alignPad writeCur
  dsimp only
  split
  · split <;> rfl
  · rfl

theorem alignPad_splitCount (s : EncSt) :
    (alignPad s).splitCount = s.splitCount := by
  unfold alignPad writeCur
  dsimp only
  split
  · split <;> rfl
  · rfl

theorem writeBlock_recs (c : List Nat → List Nat) (s : EncSt) (raw : List Nat) :
    (writeBlock c s raw).recs = s.recs ++
      [⟨s.splitCount, s.writePos, blockFlag c raw, blockData c raw, raw⟩] := by
  unfold writeBlock writeCur
  dsimp only
  split <;> rfl

theorem encStep_recs (c : List Nat → List Nat) (stem : String) (s : EncSt)
    (raw : List Nat) :
    (encStep c stem s raw).recs = s.recs ++
      [⟨(alignPad (splitCheck stem s)).splitCount,
        (alignPad (splitCheck stem s)).writePos,
        blockFlag c raw, blockData c raw, raw⟩] := by
  unfold encStep
  rw [writeBlock_recs, alignPad_recs, splitCheck_recs]

theorem encStep_recs_len (c : List Nat → List Nat) (stem : String) (s : EncSt)
    (raw : List Nat) :
    (encStep c stem s raw).recs.length = s.recs.length + 1 := by
  rw [encStep_recs]
  simp

theorem encLoop_cons (c : List Nat → List Nat) (stem : String) (b : List Nat)
    (t : List (List Nat)) (s : EncSt) :
    encLoop c stem (b :: t) s = encLoop c stem t (encStep c stem s b) := rfl

theorem encLoop_raws (c : List Nat → List Nat) (stem : String)
    (bs : List (List Nat)) (s : EncSt) :
    (encLoop c stem bs s).recs.map (fun r => r.raw) =
      s.recs.map (fun r => r.raw) ++ bs := by
  induction bs generalizing s with
  | nil => simp [encLoop]
  | cons b t ih =>
    rw [encLoop_cons, ih, encStep_recs]
    simp

theorem encLoop_recs_len (c : List Nat → List Nat) (stem : String)
    (bs : List (List Nat)) (s : EncSt) :
    (encLoop c stem bs s).recs.length = s.recs.length + bs.length := by
  have h := congrArg List.length (encLoop_raws c stem bs s)
  simpa using h

theorem inv_encStep (c : List Nat → List Nat) (stem : String) (tb n : Nat)
    (s : EncSt) (raw : List Nat) (hInv : Inv c stem tb n s)
    (hcnt : s.recs.length < n) : Inv c stem tb n (encStep c stem s raw) := by
  unfold encStep
  apply inv_writeBlock
  · exact inv_alignPad c stem tb n _ (inv_splitCheck c stem tb n s hInv)
  · rw [alignPad_recs, splitCheck_recs]
    exact hcnt
  · exact alignPad_writePos_mod _
  · have h1 := alignPad_writePos_le (splitCheck stem s)
    have h2 := splitCheck_writePos_le stem s
    omega

theorem inv_encLoop (c : List Nat → List Nat) (stem : String) (tb n : Nat)
    (bs : List (List Nat)) (s : EncSt) (hInv : Inv c stem tb n s)
    (hlen : s.recs.length + bs.length ≤ n) :
    Inv c stem tb n (encLoop c stem bs s) := by
  induction bs generalizing s with
  | nil => exact hInv
  | cons b t ih =>
    rw [encLoop_cons]
    apply ih
    · apply inv_encStep c stem tb n s b hInv
      simp at hlen
      omega
    · rw [encStep_recs_len]
      simp at hlen
      omega

theorem inv_initSt (c : List Nat → List Nat) (stem : String) (tb n : Nat) :
    Inv c stem tb n (initSt stem tb n) := by
  constructor
  case open1 => rfl
  case open2 => rfl
  case opened_eq => rfl
  case vol1_pre => exact ⟨[], by simp [initSt]⟩
  case pos0 => exact fun _ => ⟨rfl, rfl⟩
  case pos1 =>
    intro hc
    exact absurd hc (by simp [initSt])
  case vol1_len =>
    rw [initSt_vol1_length]
  case counter_eq => rfl
  case cnt_le => exact Nat.zero_le n
  case idx_len => simp [initSt]
  case recs_ok =>
    intro k hk
    exact absurd hk (by simp [initSt])
  case idx_rec =>
    intro k hk
    exact absurd hk (by simp [initSt])
  case mono =>
    intro k k' hk hk' _ _
    exact absurd hk (by simp [initSt])

theorem blocksOf_length (data : List Nat) (off : Nat) :
    (blocksOf data off).length = (data.length - off) / CISO_BLOCK_SIZE := by
  simp [blocksOf]

theorem inv_loopOut (c : List Nat → List Nat) (stem : String) (data : List Nat)
    (off : Nat) :
    Inv c stem (data.length - off) ((data.length - off) / CISO_BLOCK_SIZE)
        (loopOut c stem data off) ∧
      (loopOut c stem data off).recs.length =
        (data.length - off) / CISO_BLOCK_SIZE := by
  constructor
  · apply inv_encLoop
    · exact inv_initSt c stem _ _
    · rw [blocksOf_length]
      simp [initSt]
  · rw [loopOut, encLoop_recs_len, blocksOf_length]
    simp [initSt]

/-! Transfer through the index rewrite and the final padding. -/

theorem postLoop_recs (n : Nat) (s : EncSt) : (postLoop n s).recs = s.recs := rfl

theorem postLoop_splitCount (n : Nat) (s : EncSt) :
    (postLoop n s).splitCount = s.splitCount := rfl

theorem postLoop_vol2 (n : Nat) (s : EncSt) : (postLoop n s).vol2 = s.vol2 := rfl

theorem postLoop_blockIndex (n : Nat) (s : EncSt) :
    (postLoop n s).blockIndex =
      s.blockIndex.set n (s.writePos >>> CISO_ALIGN) := rfl

theorem postLoop_vol1 (n : Nat) (s : EncSt) :
    (postLoop n s).vol1 =
      s.vol1.take CISO_HEADER_SIZE ++
        indexBytes (s.blockIndex.set n (s.writePos >>> CISO_ALIGN)) ++
        s.vol1.drop (CISO_HEADER_SIZE + 4 * (n + 1)) := rfl

theorem finalizeVols_vol1 (s : EncSt) :
    (finalizeVols s).vol1 = pad_file_size s.vol1 := rfl

theorem finalizeVols_vol2 (s : EncSt) :
    (finalizeVols s).vol2 = s.vol2.map pad_file_size := rfl

theorem finalizeVols_recs (s : EncSt) : (finalizeVols s).recs = s.recs := rfl

theorem finalizeVols_splitCount (s : EncSt) :
    (finalizeVols s).splitCount = s.splitCount := rfl

theorem finalizeVols_blockIndex (s : EncSt) :
    (finalizeVols s).blockIndex = s.blockIndex := rfl

theorem finalizeVols_opened (s : EncSt) :
    (finalizeVols s).opened = s.opened := rfl

theorem postLoop_opened (n : Nat) (s : EncSt) :
    (postLoop n s).opened = s.opened := rfl

theorem drop_append_ge {α : Type} (front tail : List α) (o : Nat)
    (h : front.length ≤ o) :
    (front ++ tail).drop o = tail.drop (o - front.length) := by
  have he : o = front.length + (o - front.length) := by omega
  rw [he, List.drop_append]
  congr 1
  omega

theorem postLoop_vol1_parts (n : Nat) (s : EncSt)
    (hlen : hdrFoot n ≤ s.vol1.length) (hidx : s.blockIndex.length = n + 1) :
    ∃ pre, (postLoop n s).vol1 = pre ++ s.vol1.drop (hdrFoot n) ∧
      pre.length = hdrFoot n := by
  refine ⟨s.vol1.take CISO_HEADER_SIZE ++
      indexBytes (s.blockIndex.set n (s.writePos >>> CISO_ALIGN)), ?_, ?_⟩
  · rw [postLoop_vol1]
    rfl
  · simp only [List.length_append, List.length_take, indexBytes_length,
      List.length_set, hidx]
    have h24 : CISO_HEADER_SIZE ≤ s.vol1.length := by
      have : CISO_HEADER_SIZE ≤ hdrFoot n := by
        unfold hdrFoot
        omega
      omega
    unfold hdrFoot
    simp [CISO_HEADER_SIZE] at h24 ⊢
    omega

theorem postLoop_vol1_length (n : Nat) (s : EncSt)
    (hlen : hdrFoot n ≤ s.vol1.length) (hidx : s.blockIndex.length = n + 1) :
    (postLoop n s).vol1.length = s.vol1.length := by
  obtain ⟨pre, hp, hpl⟩ := postLoop_vol1_parts n s hlen hidx
  rw [hp]
  simp only [List.length_append, hpl, List.length_drop]
  omega

theorem postLoop_vol1_slice (n : Nat) (s : EncSt)
    (hlen : hdrFoot n ≤ s.vol1.length) (hidx : s.blockIndex.length = n + 1)
    (o l : Nat) (ho : hdrFoot n ≤ o) :
    ((postLoop n s).vol1.drop o).take l = (s.vol1.drop o).take l := by
  obtain ⟨pre, hp, hpl⟩ := postLoop_vol1_parts n s hlen hidx
  rw [hp, drop_append_ge _ _ o (by omega), hpl, List.drop_drop]
  have he : hdrFoot n + (o - hdrFoot n) = o := by omega
  rw [he]

theorem encodeRun_vol1_slice (c : List Nat → List Nat) (stem : String)
    (data : List Nat) (off o l : Nat)
    (ho : hdrFoot ((data.length - off) / CISO_BLOCK_SIZE) ≤ o)
    (hb : o + l ≤ (loopOut c stem data off).vol1.length) :
    ((encodeRun c stem data off).vol1.drop o).take l =
      ((loopOut c stem data off).vol1.drop o).take l := by
  obtain ⟨hInvL, _⟩ := inv_loopOut c stem data off
  have hlen := hInvL.vol1_len
  have hidx := hInvL.idx_len
  unfold encodeRun
  rw [finalizeVols_vol1, pad_file_size_append]
  rw [slice_append _ _ o l
    (by rw [postLoop_vol1_length _ _ hlen hidx]; omega)]
  exact postLoop_vol1_slice _ _ hlen hidx o l ho

theorem readBlock_length (data : List Nat) (off i : Nat)
    (hi : i < (data.length - off) / CISO_BLOCK_SIZE) :
    (readBlock data off i).length = CISO_BLOCK_SIZE := by
  have h1 : (data.length - off) / CISO_BLOCK_SIZE * CISO_BLOCK_SIZE ≤
      data.length - off := Nat.div_mul_le_self _ _
  simp only [readBlock, List.length_take, List.length_drop]
  simp only [CISO_BLOCK_SIZE] at h1 hi ⊢
  omega

/-! Claim C1: the store-versus-compress dichotomy of one iteration. -/

theorem writeBlock_writePos (c : List Nat → List Nat) (s : EncSt)
    (raw : List Nat) :
    (writeBlock c s raw).writePos = s.writePos + (blockData c raw).length := by
  unfold writeBlock writeCur
  dsimp only
  split <;> rfl

theorem stepBase_writePos_le (stem : String) (s : EncSt) :
    (alignPad (splitCheck stem s)).writePos ≤ SPLIT_LIMIT + 3 := by
  have h1 := alignPad_writePos_le (splitCheck stem s)
  have h2 := splitCheck_writePos_le stem s
  omega

theorem blockEntry_testBit (c : List Nat → List Nat) (raw : List Nat)
    (off : Nat) (hoff : off ≤ SPLIT_LIMIT + 3) :
    Nat.testBit (blockEntry c raw off) 31 = blockFlag c raw := by
  unfold blockEntry
  split
  case isTrue h =>
    rw [Nat.testBit_or]
    have e : Nat.testBit 0x80000000 31 = true := by decide
    rw [e, h]
    simp
  case isFalse h =>
    rw [Nat.testBit_lt_two_pow, Bool.eq_false_iff.mpr h]
    rw [shr2]
    have : SPLIT_LIMIT = 4290732032 := by decide
    omega

theorem writeCur_curContent (s : EncSt) (bs : List Nat)
    (hv2 : s.splitCount = 0 ∨ s.vol2.isSome) :
    curContent (writeCur s bs) = curContent s ++ bs := by
  unfold writeCur curContent
  split
  case isTrue h0 =>
    simp [h0]
  case isFalse h0 =>
    rcases hv2 with h | h
    · exact absurd h h0
    · obtain ⟨v, hv⟩ := Option.isSome_iff_exists.mp h
      rw [hv]
      simp [h0]

theorem writeBlock_curContent (c : List Nat → List Nat) (s : EncSt)
    (raw : List Nat) (hv2 : s.splitCount = 0 ∨ s.vol2.isSome) :
    curContent (writeBlock c s raw) = curContent s ++ blockData c raw := by
  unfold writeBlock writeCur curContent
  dsimp only
  split
  case isTrue h0 =>
    simp [h0]
  case isFalse h0 =>
    rcases hv2 with h | h
    · exact absurd h h0
    · obtain ⟨v, hv⟩ := Option.isSome_iff_exists.mp h
      rw [hv]
      simp [h0]

theorem splitCheck_vol2_keep (stem : String) (s : EncSt)
    (hv2 : s.splitCount = 0 ∨ s.vol2.isSome) :
    (splitCheck stem s).splitCount = 0 ∨ (splitCheck stem s).vol2.isSome := by
  unfold splitCheck
  split
  · right
    rfl
  · exact hv2

theorem alignPad_vol2_keep (s : EncSt)
    (hv2 : s.splitCount = 0 ∨ s.vol2.isSome) :
    (alignPad s).splitCount = 0 ∨ (alignPad s).vol2.isSome := by
  unfold alignPad writeCur
  dsimp only
  split
  · split
    case isTrue h0 => exact Or.inl h0
    case isFalse h0 =>
      rcases hv2 with h | h
      · exact absurd h h0
      · right
        obtain ⟨v, hv⟩ := Option.isSome_iff_exists.mp h
        dsimp only
        rw [hv]
        rfl
  · exact hv2

theorem encStep_curContent (c : List Nat → List Nat) (stem : String)
    (s : EncSt) (raw : List Nat) (hv2 : s.splitCount = 0 ∨ s.vol2.isSome) :
    curContent (encStep c stem s raw) =
      curContent (alignPad (splitCheck stem s)) ++ blockData c raw := by
  unfold encStep
  exact writeBlock_curContent c _ raw
    (alignPad_vol2_keep _ (splitCheck_vol2_keep stem s hv2))

/-- C1: for every 2048-byte source block, exactly one of stored or
compressed holds: when `len(compress(block)) + 12 >= len(block)` the raw
bytes are written, the entry's `0x80000000` bit stays clear and the cursor
advances by `len(block)`; otherwise the compressed bytes are written, the
bit is set and the cursor advances by `len(compress(block))` — hence a
compressed block always satisfies `compressed_len + 12 < raw_len`. -/
theorem C1_store_or_compress (c : List Nat → List Nat) (stem : String)
    (s : EncSt) (raw : List Nat) (hraw : raw.length = 2048)
    (hv2 : s.splitCount = 0 ∨ s.vol2.isSome) : C1Spec c stem s raw := by
  refine ⟨?_, ?_, by omega, ?_, encStep_curContent c stem s raw hv2⟩
  · intro h
    have hf : blockFlag c raw = false := by
      rw [blockFlag_iff]
      exact decide_eq_false_iff_not.mpr (Nat.not_lt.mpr h)
    have hd : blockData c raw = raw := by
      unfold blockData
      rw [hf]
      simp
    refine ⟨hf, hd, ?_, ?_⟩
    · unfold encStep
      rw [writeBlock_writePos, hd]
    · rw [blockEntry_testBit c raw _ (stepBase_writePos_le stem s), hf]
  · intro h
    have hf : blockFlag c raw = true := by
      rw [blockFlag_iff]
      exact decide_eq_true h
    have hd : blockData c raw = c raw := by
      unfold blockData
      rw [hf]
      simp
    refine ⟨hf, hd, ?_, ?_⟩
    · unfold encStep
      rw [writeBlock_writePos, hd]
    · rw [blockEntry_testBit c raw _ (stepBase_writePos_le stem s), hf]
  · intro hf
    rw [blockFlag_iff] at hf
    exact of_decide_eq_true hf

/-! Claim C3: block counting and truncation. -/

theorem readBlock_take_eq (data : List Nat) (off i E : Nat)
    (hE : off + CISO_BLOCK_SIZE * (i + 1) ≤ E) :
    readBlock (data.take E) off i = readBlock data off i := by
  unfold readBlock
  rw [List.take_drop, List.take_drop, List.take_take]
  have hmin : min (off + CISO_BLOCK_SIZE * i + CISO_BLOCK_SIZE) E =
      off + CISO_BLOCK_SIZE * i + CISO_BLOCK_SIZE := by
    simp only [CISO_BLOCK_SIZE] at hE ⊢
    omega
  rw [hmin]

theorem blocksOf_take_eq (data : List Nat) (off : Nat)
    (hoff : off ≤ data.length) :
    blocksOf (data.take (off + CISO_BLOCK_SIZE *
        ((data.length - off) / CISO_BLOCK_SIZE))) off = blocksOf data off := by
  have hdiv : (data.length - off) / CISO_BLOCK_SIZE * CISO_BLOCK_SIZE ≤
      data.length - off := Nat.div_mul_le_self _ _
  have hE : off + CISO_BLOCK_SIZE * ((data.length - off) / CISO_BLOCK_SIZE) ≤
      data.length := by
    simp only [CISO_BLOCK_SIZE] at hdiv ⊢
    omega
  have hlen : (data.take (off + CISO_BLOCK_SIZE *
      ((data.length - off) / CISO_BLOCK_SIZE))).length =
      off + CISO_BLOCK_SIZE * ((data.length - off) / CISO_BLOCK_SIZE) := by
    simp only [List.length_take]
    omega
  have hn : ((data.take (off + CISO_BLOCK_SIZE *
      ((data.length - off) / CISO_BLOCK_SIZE))).length - off) /
        CISO_BLOCK_SIZE = (data.length - off) / CISO_BLOCK_SIZE := by
    rw [hlen]
    simp only [CISO_BLOCK_SIZE]
    omega
  unfold blocksOf
  rw [hn]
  apply List.ext_getElem
  · simp
  · intro i h1 h2
    simp only [List.getElem_map, List.getElem_range]
    apply readBlock_take_eq
    simp only [List.length_map, List.length_range] at h1
    simp only [CISO_BLOCK_SIZE] at h1 ⊢
    omega

/-- C3: the block count computed at header time is exactly
`floor(total_bytes / 2048)`, the loop reads exactly that many 2048-byte
blocks, and trailing bytes beyond the last full block are never read. -/
theorem C3_total_blocks (data : List Nat) (off : Nat)
    (hoff : off ≤ data.length) : C3Spec data off := by
  refine ⟨rfl, ?_, ?_, ?_, ?_⟩
  · show CISO_BLOCK_SIZE * ((data.length - off) / CISO_BLOCK_SIZE) ≤
      data.length - off
    have hdiv := Nat.div_mul_le_self (data.length - off) CISO_BLOCK_SIZE
    simp only [CISO_BLOCK_SIZE] at hdiv ⊢
    omega
  · rw [blocksOf_length]
    rfl
  · intro i hi
    exact readBlock_length data off i hi
  · exact blocksOf_take_eq data off hoff

/-- Witness for C3 at a concrete source. -/
theorem C3_total_blocks_witness :
    (0 ≤ (List.replicate 4096 7 : List Nat).length) ∧
      C3Spec (List.replicate 4096 7) 0 :=
  ⟨Nat.zero_le _, C3_total_blocks (List.replicate 4096 7) 0 (Nat.zero_le _)⟩

/-! Claim C4: offsets are aligned and non-decreasing per volume instance. -/

/-- C4: within every volume instance the recorded byte offsets are
non-decreasing, and every recorded offset is a multiple of
`1 << align_shift` and is recovered exactly from the stored index entry by
masking the flag bit and shifting left by the align shift. -/
theorem C4_offsets (c : List Nat → List Nat) (stem : String) (data : List Nat)
    (off : Nat) : C4Spec c stem data off := by
  obtain ⟨hInvL, hlen⟩ := inv_loopOut c stem data off
  constructor
  · intro i j hi hj hij hinc
    have hi' : i < (loopOut c stem data off).recs.length := hi
    have hj' : j < (loopOut c stem data off).recs.length := hj
    rcases Nat.lt_or_ge i j with hlt | hge
    · have hm := hInvL.mono i j hi' hj' hlt hinc
      exact Nat.le_trans (Nat.le_add_right _ _) hm
    · have hij' : i = j := by omega
      subst hij'
      exact Nat.le_refl _
  · intro i hi
    have hi' : i < (loopOut c stem data off).recs.length := hi
    have hr := hInvL.recs_ok i hi'
    have hne : (data.length - off) / CISO_BLOCK_SIZE ≠ i := by
      rw [← hlen]
      omega
    have hbi : (encodeRun c stem data off).blockIndex.getD i 0 =
        entryOf ((loopOut c stem data off).recs.get ⟨i, hi'⟩) := by
      have h1 : ((loopOut c stem data off).blockIndex.set
          ((data.length - off) / CISO_BLOCK_SIZE)
          ((loopOut c stem data off).writePos >>> CISO_ALIGN)).getD i 0 =
          (loopOut c stem data off).blockIndex.getD i 0 :=
        getD_set_ne _ _ _ _ hne
      have h2 := hInvL.idx_rec i hi'
      exact h1.trans h2
    have hq : (1 <<< CISO_ALIGN : Nat) = 4 := by decide
    have hoffle := hr.off_le
    have hbound : ((loopOut c stem data off).recs.get ⟨i, hi'⟩).off / 4 <
        2147483648 := by
      have : SPLIT_LIMIT = 4290732032 := by decide
      omega
    have hrr : (encodeRun c stem data off).recs.get ⟨i, hi⟩ =
        (loopOut c stem data off).recs.get ⟨i, hi'⟩ := rfl
    rw [hrr]
    refine ⟨by rw [hq]; exact hr.off_mod, ?_⟩
    rw [hbi]
    unfold entryOf
    split
    · rw [shr2, flagged_entry_mask _ hbound, shl2]
      have hm := hr.off_mod
      omega
    · rw [shr2, stored_entry_mask _ hbound, shl2]
      have hm := hr.off_mod
      omega

/-! Claim C8: header layout and the header-plus-index footprint. -/

theorem leVal_u32 (x : Nat) (h : x < 4294967296) : leVal (u32le x) = x := by
  simp only [leVal, u32le, List.foldr_cons, List.foldr_nil]
  omega

theorem leVal_u64 (x : Nat) (h : x < 18446744073709551616) :
    leVal (u64le x) = x := by
  simp only [leVal, u64le, List.foldr_cons, List.foldr_nil]
  omega

theorem header_drop4 (tb : Nat) :
    (write_cso_header tb).drop 4 =
      u32le CISO_HEADER_SIZE ++ (u64le tb ++ (u32le CISO_BLOCK_SIZE ++
        [2, 2, 0, 0])) := by
  unfold write_cso_header
  exact List.drop_left' (u32le_length _)

theorem header_drop8 (tb : Nat) :
    (write_cso_header tb).drop 8 =
      u64le tb ++ (u32le CISO_BLOCK_SIZE ++ [2, 2, 0, 0]) := by
  have e : (write_cso_header tb).drop 8 =
      ((write_cso_header tb).drop 4).drop 4 := by
    rw [List.drop_drop]
  rw [e, header_drop4]
  exact List.drop_left' (u32le_length _)

theorem header_drop16 (tb : Nat) :
    (write_cso_header tb).drop 16 =
      u32le CISO_BLOCK_SIZE ++ [2, 2, 0, 0] := by
  have e : (write_cso_header tb).drop 16 =
      ((write_cso_header tb).drop 8).drop 8 := by
    rw [List.drop_drop]
  rw [e, header_drop8]
  exact List.drop_left' (u64le_length _)

theorem header_drop20 (tb : Nat) :
    (write_cso_header tb).drop 20 = [2, 2, 0, 0] := by
  have e : (write_cso_header tb).drop 20 =
      ((write_cso_header tb).drop 16).drop 4 := by
    rw [List.drop_drop]
  rw [e, header_drop16]
  exact List.drop_left' (u32le_length _)

/-- C8: the 24-byte little-endian header layout, and the fixed
`header_size + 4*(total_blocks+1)` header-plus-index footprint at the start
of the first volume, preserved in place by the finalize rewrite. -/
theorem C8_header (c : List Nat → List Nat) (stem : String) (data : List Nat)
    (off : Nat) (h64 : data.length < 18446744073709551616) :
    C8Spec c stem data off := by
  obtain ⟨hInvL, hlen⟩ := inv_loopOut c stem data off
  obtain ⟨t, ht⟩ := hInvL.vol1_pre
  have hPlen := hInvL.vol1_len
  have hidx := hInvL.idx_len
  have hfoot24 : 24 ≤ hdrFoot ((data.length - off) / CISO_BLOCK_SIZE) := by
    unfold hdrFoot
    simp [CISO_HEADER_SIZE]
  have hL24 : (loopOut c stem data off).vol1.take 24 =
      write_cso_header (data.length - off) := by
    rw [ht, List.append_assoc]
    exact List.take_left' (write_cso_header_length _)
  have htk : ((loopOut c stem data off).vol1.take CISO_HEADER_SIZE).length
      = 24 := by
    simp only [List.length_take, CISO_HEADER_SIZE]
    omega
  have hPfront : (postLoop ((data.length - off) / CISO_BLOCK_SIZE)
      (loopOut c stem data off)).vol1.take 24 =
      write_cso_header (data.length - off) := by
    rw [postLoop_vol1, List.append_assoc]
    rw [List.take_left' htk]
    exact hL24
  have hPL := postLoop_vol1_length ((data.length - off) / CISO_BLOCK_SIZE)
    (loopOut c stem data off) hPlen hidx
  have hPdrop : (postLoop ((data.length - off) / CISO_BLOCK_SIZE)
      (loopOut c stem data off)).vol1.drop CISO_HEADER_SIZE =
      indexBytes ((loopOut c stem data off).blockIndex.set
          ((data.length - off) / CISO_BLOCK_SIZE)
          ((loopOut c stem data off).writePos >>> CISO_ALIGN)) ++
        (loopOut c stem data off).vol1.drop
          (CISO_HEADER_SIZE + 4 * ((data.length - off) / CISO_BLOCK_SIZE + 1)) := by
    rw [postLoop_vol1, List.append_assoc]
    exact List.drop_left' htk
  have hidxlen : (indexBytes ((loopOut c stem data off).blockIndex.set
      ((data.length - off) / CISO_BLOCK_SIZE)
      ((loopOut c stem data off).writePos >>> CISO_ALIGN))).length =
      4 * ((data.length - off) / CISO_BLOCK_SIZE + 1) := by
    rw [indexBytes_length, List.length_set, hidx]
  refine ⟨write_cso_header_length _, ?_, ?_, ?_, ?_, ?_, header_drop20 _,
    ?_, ?_, ?_⟩
  · unfold encodeRun
    rw [finalizeVols_vol1, pad_file_size_append,
      List.take_append_of_le_length (by omega)]
    exact hPfront
  · rw [show (write_cso_header (data.length - off)).take 4 =
        u32le CISO_MAGIC from List.take_left' (u32le_length _)]
    exact leVal_u32 _ (by decide)
  · rw [header_drop4, List.take_left' (u32le_length _)]
    exact leVal_u32 _ (by decide)
  · rw [header_drop8, List.take_left' (u64le_length _)]
    exact leVal_u64 _ (by omega)
  · rw [header_drop16, List.take_left' (u32le_length _)]
    exact leVal_u32 _ (by decide)
  · unfold encodeRun
    rw [finalizeVols_vol1, pad_file_size_append,
      List.drop_append_of_le_length (by simp [CISO_HEADER_SIZE]; omega)]
    rw [hPdrop, List.append_assoc]
    rw [List.take_left' hidxlen]
    rw [finalizeVols_blockIndex, postLoop_blockIndex]
  · unfold encodeRun
    rw [finalizeVols_blockIndex, postLoop_blockIndex]
    exact hidxlen
  · unfold encodeRun
    rw [finalizeVols_vol1, pad_file_size_append]
    simp only [List.length_append]
    omega

/-- Witness for C8 at a concrete source. -/
theorem C8_header_witness :
    ((List.replicate 2048 5 : List Nat).length < 18446744073709551616) ∧
      C8Spec id "g" (List.replicate 2048 5) 0 :=
  ⟨by simp only [List.length_replicate]; omega,
    C8_header id "g" (List.replicate 2048 5) 0
      (by simp only [List.length_replicate]; omega)⟩

/-! Claim C9: final padding of every produced volume. -/

/-- C9: after the encode pass each produced volume is padded with zero
bytes exactly once (between 1 and 1024 of them), and every produced
volume's final size is a multiple of 1024 bytes. -/
theorem C9_padding (c : List Nat → List Nat) (stem : String) (data : List Nat)
    (off : Nat) :
    (encodeRun c stem data off).vol1 =
      pad_file_size ((postLoop ((data.length - off) / CISO_BLOCK_SIZE)
        (loopOut c stem data off)).vol1) ∧
    (encodeRun c stem data off).vol2 =
      ((loopOut c stem data off).vol2).map pad_file_size ∧
    (encodeRun c stem data off).vol1.length % 1024 = 0 ∧
    ((encodeRun c stem data off).vol2.getD []).length % 1024 = 0 ∧
    (∀ content : List Nat,
      pad_file_size content =
        content ++ List.replicate (1024 - content.length % 1024) 0 ∧
      0 < 1024 - content.length % 1024 ∧
      1024 - content.length % 1024 ≤ 1024 ∧
      (pad_file_size content).length % 1024 = 0) := by
  refine ⟨rfl, rfl, ?_, ?_, ?_⟩
  · exact pad_file_size_mod _
  · have hv : (encodeRun c stem data off).vol2 =
        ((loopOut c stem data off).vol2).map pad_file_size := rfl
    rw [hv]
    cases (loopOut c stem data off).vol2 with
    | none => simp
    | some v =>
      simp only [Option.map_some', Option.getD_some]
      exact pad_file_size_mod v
  · intro content
    exact ⟨pad_file_size_append content, by omega, by omega,
      pad_file_size_mod content⟩

/-! Claim C7 (amended) and claim C10: handles and volume names. -/

theorem inv_loopState (c : List Nat → List Nat) (stem : String)
    (data : List Nat) (off k : Nat) :
    Inv c stem (data.length - off) ((data.length - off) / CISO_BLOCK_SIZE)
      (loopState c stem data off k) := by
  apply inv_encLoop
  · exact inv_initSt c stem _ _
  · simp only [initSt, List.length_take, List.length_nil, blocksOf_length]
    have hmin : k ⊓ ((data.length - off) / CISO_BLOCK_SIZE) ≤
        (data.length - off) / CISO_BLOCK_SIZE := min_le_right _ _
    omega

/-- C7 (amended): during the whole pass the first volume's handle stays
open (it is needed for the final index rewrite), the current `.2.cso`
handle is open exactly when a split has occurred — so after a split two
destination handles are open — and both are closed at the very end. -/
theorem C7_amended_handles (c : List Nat → List Nat) (stem : String)
    (data : List Nat) (off k : Nat) :
    (loopState c stem data off k).vol1Open = true ∧
    (loopState c stem data off k).vol2Open =
      decide (0 < (loopState c stem data off k).splitCount) ∧
    (encodeRun c stem data off).vol1Open = false ∧
    (encodeRun c stem data off).vol2Open = false := by
  have h := inv_loopState c stem data off k
  exact ⟨h.open1, h.open2, rfl, rfl⟩

/-- C10: only the `.1.cso` and `.2.cso` names are ever opened, and every
threshold crossing (the first and all later ones alike) opens the same
`.2.cso` path truncated, with the write cursor reset to 0. -/
theorem C10_two_volumes (c : List Nat → List Nat) (stem : String)
    (data : List Nat) (off k : Nat) (s : EncSt) :
    C10Spec c stem data off k s := by
  have h := inv_loopState c stem data off k
  obtain ⟨hInvL, _⟩ := inv_loopOut c stem data off
  refine ⟨h.opened_eq, ?_, ?_, ?_⟩
  · intro x hx
    rw [h.opened_eq] at hx
    rcases List.mem_cons.mp hx with h1 | h2
    · exact Or.inl h1
    · exact Or.inr (List.eq_of_mem_replicate h2)
  · have he : (encodeRun c stem data off).opened =
        (loopOut c stem data off).opened := rfl
    have hs : (encodeRun c stem data off).splitCount =
        (loopOut c stem data off).splitCount := rfl
    rw [he, hs]
    exact hInvL.opened_eq
  · intro hT
    unfold splitCheck
    rw [if_pos hT]

/-- Witness for C10: a run with no split, plus a concrete state above the
threshold for the reopen-truncating part. -/
theorem C10_two_volumes_witness :
    C10Spec id "g" (List.replicate 2048 5) 0 1
      { initSt "g" 2048 1 with writePos := SPLIT_LIMIT + 1 } ∧
    ({ initSt "g" 2048 1 with writePos := SPLIT_LIMIT + 1 } : EncSt).writePos >
      SPLIT_LIMIT :=
  ⟨C10_two_volumes id "g" (List.replicate 2048 5) 0 1
      { initSt "g" 2048 1 with writePos := SPLIT_LIMIT + 1 },
    Nat.lt_succ_self SPLIT_LIMIT⟩

/-! Claim C5 (amended): the split transition. -/

theorem alignPad_of_aligned (s : EncSt) (h : s.writePos % 4 = 0) :
    alignPad s = s := by
  unfold alignPad
  rw [and3_mod]
  simp [h]

theorem writeBlock_vol1Open (c : List Nat → List Nat) (s : EncSt)
    (raw : List Nat) : (writeBlock c s raw).vol1Open = s.vol1Open := by
  unfold writeBlock writeCur
  dsimp only
  split <;> rfl

theorem writeBlock_opened (c : List Nat → List Nat) (s : EncSt)
    (raw : List Nat) : (writeBlock c s raw).opened = s.opened := by
  unfold writeBlock writeCur
  dsimp only
  split <;> rfl

theorem alignPad_vol1Open (s : EncSt) : (alignPad s).vol1Open = s.vol1Open := by
  unfold alignPad writeCur
  dsimp only
  split
  · split <;> rfl
  · rfl

theorem splitCheck_vol1Open (stem : String) (s : EncSt) :
    (splitCheck stem s).vol1Open = s.vol1Open := by
  unfold splitCheck
  split <;> rfl

/-- C5 (amended): when the cursor already exceeds `0xFFBF6000` at the top
of an iteration, the encoder opens `stem.2.cso` (truncating it), resets the
cursor to 0 and records the block relative to the new volume's start — the
recorded offset is 0 — while the first volume's handle is left open (its
state is unchanged). -/
theorem C5_amended_split (c : List Nat → List Nat) (stem : String)
    (s : EncSt) (raw : List Nat) (hT : s.writePos > SPLIT_LIMIT) :
    C5Spec c stem s raw := by
  have hsc : splitCheck stem s =
      { s with vol2 := some []
               vol2Open := true
               opened := s.opened ++ [cso_name stem 2]
               splitCount := s.splitCount + 1
               writePos := 0 } := by
    unfold splitCheck
    rw [if_pos hT]
  have hap : alignPad (splitCheck stem s) = splitCheck stem s := by
    apply alignPad_of_aligned
    rw [hsc]
    rfl
  refine ⟨hsc, ?_, ?_, ?_, ?_, ?_⟩
  · unfold encStep
    rw [writeBlock_recs, hap, hsc]
  · unfold encStep
    rw [writeBlock_vol1Open, hap, hsc]
  · unfold encStep
    rw [writeBlock_opened, hap, hsc]
  · unfold encStep
    rw [writeBlock_writePos, hap, hsc]
    dsimp only
    omega
  · unfold encStep
    rw [hap, hsc]
    unfold writeBlock writeCur
    dsimp only
    split
    case isTrue h0 =>
      exact absurd h0 (Nat.succ_ne_zero _)
    case isFalse h0 =>
      simp

/-- Witness for C5 (amended) at a concrete over-threshold state. -/
theorem C5_amended_split_witness :
    ({ initSt "g" 2048 1 with writePos := SPLIT_LIMIT + 1 } : EncSt).writePos >
        SPLIT_LIMIT ∧
      C5Spec id "g" { initSt "g" 2048 1 with writePos := SPLIT_LIMIT + 1 }
        (List.replicate 2048 0) :=
  ⟨Nat.lt_succ_self SPLIT_LIMIT,
    C5_amended_split id "g"
      { initSt "g" 2048 1 with writePos := SPLIT_LIMIT + 1 }
      (List.replicate 2048 0) (Nat.lt_succ_self SPLIT_LIMIT)⟩

/-! Claim C2 (amended): the round trip for surviving blocks. -/

/-- C2 (amended): decoding any block whose payload still lives in the
produced container — every block of the first volume, and the blocks of the
last-opened `.2.cso` instance (an earlier `.2.cso` instance is truncated
away by a later split, see C10) — via its recorded index entry reproduces
the raw source bytes of that block exactly, for both flag states, assuming
decompression inverts the block compressor. -/
theorem C2_roundtrip_surviving (c d : List Nat → List Nat) (stem : String)
    (data : List Nat) (off i : Nat)
    (hi : i < (encodeRun c stem data off).recs.length)
    (hsurv :
      ((encodeRun c stem data off).recs.getD i ⟨0, 0, false, [], []⟩).inc = 0 ∨
      ((encodeRun c stem data off).recs.getD i ⟨0, 0, false, [], []⟩).inc =
        (encodeRun c stem data off).splitCount)
    (hd : d (c ((encodeRun c stem data off).recs.getD i
          ⟨0, 0, false, [], []⟩).raw) =
        ((encodeRun c stem data off).recs.getD i ⟨0, 0, false, [], []⟩).raw) :
    decodeBlock
        (if ((encodeRun c stem data off).recs.getD i
            ⟨0, 0, false, [], []⟩).inc = 0
          then (encodeRun c stem data off).vol1
          else (encodeRun c stem data off).vol2.getD [])
        ((encodeRun c stem data off).blockIndex.getD i 0)
        ((encodeRun c stem data off).recs.getD i
          ⟨0, 0, false, [], []⟩).payload.length d =
      ((encodeRun c stem data off).recs.getD i ⟨0, 0, false, [], []⟩).raw ∧
    ((encodeRun c stem data off).recs.getD i ⟨0, 0, false, [], []⟩).raw =
      readBlock data off i := by
  obtain ⟨hInvL, hlen⟩ := inv_loopOut c stem data off
  have hi' : i < (loopOut c stem data off).recs.length := hi
  have hgd : (encodeRun c stem data off).recs.getD i ⟨0, 0, false, [], []⟩ =
      (loopOut c stem data off).recs.get ⟨i, hi'⟩ := by
    rw [List.getD_eq_getElem?_getD, List.getElem?_eq_getElem hi]
    rfl
  rw [hgd] at hsurv hd ⊢
  have hr := hInvL.recs_ok i hi'
  have hne : (data.length - off) / CISO_BLOCK_SIZE ≠ i := by
    rw [← hlen]
    omega
  have hbi : (encodeRun c stem data off).blockIndex.getD i 0 =
      entryOf ((loopOut c stem data off).recs.get ⟨i, hi'⟩) := by
    have h1 : ((loopOut c stem data off).blockIndex.set
        ((data.length - off) / CISO_BLOCK_SIZE)
        ((loopOut c stem data off).writePos >>> CISO_ALIGN)).getD i 0 =
        (loopOut c stem data off).blockIndex.getD i 0 :=
      getD_set_ne _ _ _ _ hne
    exact h1.trans (hInvL.idx_rec i hi')
  have hoffle := hr.off_le
  have hb31 : ((loopOut c stem data off).recs.get ⟨i, hi'⟩).off / 4 <
      2147483648 := by
    have : SPLIT_LIMIT = 4290732032 := by decide
    omega
  have hoffmod := hr.off_mod
  -- the payload still sits at the recorded offset of the surviving volume
  have hslice :
      ((if ((loopOut c stem data off).recs.get ⟨i, hi'⟩).inc = 0
          then (encodeRun c stem data off).vol1
          else (encodeRun c stem data off).vol2.getD []).drop
            ((loopOut c stem data off).recs.get ⟨i, hi'⟩).off).take
          ((loopOut c stem data off).recs.get ⟨i, hi'⟩).payload.length =
        ((loopOut c stem data off).recs.get ⟨i, hi'⟩).payload := by
    by_cases hinc0 : ((loopOut c stem data off).recs.get ⟨i, hi'⟩).inc = 0
    · rw [if_pos hinc0]
      obtain ⟨ha, hb, hsl⟩ := hr.in_vol1 hinc0
      rw [encodeRun_vol1_slice c stem data off _ _ ha hb]
      exact hsl
    · rw [if_neg hinc0]
      rcases hsurv with h0 | hS
      · exact absurd h0 hinc0
      · have hS' : ((loopOut c stem data off).recs.get ⟨i, hi'⟩).inc =
            (loopOut c stem data off).splitCount := hS
        have hpos : 0 < ((loopOut c stem data off).recs.get ⟨i, hi'⟩).inc :=
          Nat.pos_of_ne_zero hinc0
        obtain ⟨hb, hsl⟩ := hr.in_vol2 hpos hS'
        have hposL : 0 < (loopOut c stem data off).splitCount := by omega
        obtain ⟨v, hv, hl⟩ := hInvL.pos1 hposL
        rw [hv] at hb hsl
        simp only [Option.getD_some] at hb hsl
        have hv2 : (encodeRun c stem data off).vol2 =
            some (pad_file_size v) := by
          have he : (encodeRun c stem data off).vol2 =
              ((loopOut c stem data off).vol2).map pad_file_size := rfl
          rw [he, hv]
          rfl
        rw [hv2]
        simp only [Option.getD_some]
        rw [pad_file_size_append, slice_append _ _ _ _ hb]
        exact hsl
  constructor
  · rw [hbi]
    unfold decodeBlock
    cases hf : ((loopOut c stem data off).recs.get ⟨i, hi'⟩).flag with
    | false =>
      have hent : entryOf ((loopOut c stem data off).recs.get ⟨i, hi'⟩) =
          ((loopOut c stem data off).recs.get ⟨i, hi'⟩).off >>> CISO_ALIGN := by
        unfold entryOf
        rw [hf]
        rw [if_neg Bool.false_ne_true]
      rw [hent, shr2]
      rw [if_neg (by rw [stored_entry_flag _ hb31]; simp)]
      rw [stored_entry_mask _ hb31, shl2]
      have he4 : ((loopOut c stem data off).recs.get ⟨i, hi'⟩).off / 4 * 4 =
          ((loopOut c stem data off).recs.get ⟨i, hi'⟩).off := by omega
      rw [he4, hslice]
      have hp := hr.payload_eq
      rw [hf, if_neg Bool.false_ne_true] at hp
      exact hp
    | true =>
      have hent : entryOf ((loopOut c stem data off).recs.get ⟨i, hi'⟩) =
          (((loopOut c stem data off).recs.get ⟨i, hi'⟩).off >>> CISO_ALIGN)
            ||| 0x80000000 := by
        unfold entryOf
        rw [hf]
        rw [if_pos rfl]
      rw [hent, shr2]
      rw [if_pos (flagged_entry_flag _)]
      rw [flagged_entry_mask _ hb31, shl2]
      have he4 : ((loopOut c stem data off).recs.get ⟨i, hi'⟩).off / 4 * 4 =
          ((loopOut c stem data off).recs.get ⟨i, hi'⟩).off := by omega
      rw [he4, hslice]
      have hp := hr.payload_eq
      rw [hf, if_pos rfl] at hp
      rw [hp]
      exact hd
  · have hraws := encLoop_raws c stem (blocksOf data off)
      (initSt stem (data.length - off) ((data.length - off) / CISO_BLOCK_SIZE))
    have hraws' : (loopOut c stem data off).recs.map (fun r => r.raw) =
        blocksOf data off := by
      rw [loopOut] at *
      rw [hraws]
      simp [initSt]
    have hb1 : i < (blocksOf data off).length := by
      rw [blocksOf_length]
      omega
    have hq : ((loopOut c stem data off).recs.map (fun r => r.raw))[i]? =
        (blocksOf data off)[i]? := by
      rw [hraws']
    rw [List.getElem?_map, List.getElem?_eq_getElem hi'] at hq
    have hq2 : (blocksOf data off)[i]? = some (readBlock data off i) := by
      unfold blocksOf
      rw [List.getElem?_map]
      rw [List.getElem?_range (by rw [blocksOf_length] at hb1; exact hb1)]
      rfl
    rw [hq2] at hq
    simpa using hq

theorem replicate_one_block_arg :
    ((List.replicate 2048 5 : List Nat).length - 0) / CISO_BLOCK_SIZE = 1 := by
  rw [List.length_replicate]
  decide

theorem replicate_one_block_tb :
    (List.replicate 2048 5 : List Nat).length - 0 = 2048 := by
  rw [List.length_replicate]

theorem replicate_one_block_recs :
    (encodeRun id "g" (List.replicate 2048 5) 0).recs =
      [⟨(initSt "g" 2048 1).splitCount, (initSt "g" 2048 1).writePos,
        blockFlag id (readBlock (List.replicate 2048 5) 0 0),
        blockData id (readBlock (List.replicate 2048 5) 0 0),
        readBlock (List.replicate 2048 5) 0 0⟩] := by
  have hblocks : blocksOf (List.replicate 2048 5) 0 =
      [readBlock (List.replicate 2048 5) 0 0] := by
    unfold blocksOf
    rw [replicate_one_block_arg]
    rfl
  have hsc : splitCheck "g" (initSt "g" 2048 1) = initSt "g" 2048 1 := by
    unfold splitCheck
    rw [initSt_writePos]
    rw [if_neg (by decide)]
  have hal : alignPad (initSt "g" 2048 1) = initSt "g" 2048 1 :=
    alignPad_of_aligned _ (by rw [initSt_writePos]; decide)
  have he : (encodeRun id "g" (List.replicate 2048 5) 0).recs =
      (loopOut id "g" (List.replicate 2048 5) 0).recs := by
    unfold encodeRun
    rw [finalizeVols_recs, postLoop_recs]
  rw [he]
  unfold loopOut
  rw [hblocks, replicate_one_block_arg, replicate_one_block_tb]
  rw [show encLoop id "g" [readBlock (List.replicate 2048 5) 0 0]
      (initSt "g" 2048 1) =
      encStep id "g" (initSt "g" 2048 1)
        (readBlock (List.replicate 2048 5) 0 0) from rfl]
  rw [encStep_recs, hsc, hal, initSt_recs]
  rw [List.nil_append]

/-- Witness for C2 (amended) on a one-block source. -/
theorem C2_roundtrip_surviving_witness :
    (0 < (encodeRun id "g" (List.replicate 2048 5) 0).recs.length) ∧
    (((encodeRun id "g" (List.replicate 2048 5) 0).recs.getD 0
        ⟨0, 0, false, [], []⟩).inc = 0) ∧
    (decodeBlock
        (if ((encodeRun id "g" (List.replicate 2048 5) 0).recs.getD 0
            ⟨0, 0, false, [], []⟩).inc = 0
          then (encodeRun id "g" (List.replicate 2048 5) 0).vol1
          else (encodeRun id "g" (List.replicate 2048 5) 0).vol2.getD [])
        ((encodeRun id "g" (List.replicate 2048 5) 0).blockIndex.getD 0 0)
        ((encodeRun id "g" (List.replicate 2048 5) 0).recs.getD 0
          ⟨0, 0, false, [], []⟩).payload.length id =
      ((encodeRun id "g" (List.replicate 2048 5) 0).recs.getD 0
        ⟨0, 0, false, [], []⟩).raw ∧
    ((encodeRun id "g" (List.replicate 2048 5) 0).recs.getD 0
        ⟨0, 0, false, [], []⟩).raw = readBlock (List.replicate 2048 5) 0 0) := by
  have hiw : 0 < (encodeRun id "g" (List.replicate 2048 5) 0).recs.length := by
    rw [replicate_one_block_recs]
    decide
  have hincw : ((encodeRun id "g" (List.replicate 2048 5) 0).recs.getD 0
      ⟨0, 0, false, [], []⟩).inc = 0 := by
    rw [replicate_one_block_recs]
    rfl
  exact ⟨hiw, hincw,
    C2_roundtrip_surviving id id "g" (List.replicate 2048 5) 0 0 hiw
      (Or.inl hincw) rfl⟩

/-! Claim C6 (amended): abort on unrecognized source format. -/

/-- C6 (amended): when ISO-type detection fails the whole run aborts with
the unrecognized-format error before writing any byte to any output — but
the first volume file has already been created (truncated to empty) by the
`open` that precedes detection. -/
theorem C6_amended_abort (c : List Nat → List Nat) (stem : String)
    (data : List Nat) (hfail : detect_iso_type data = none) :
    compress_iso c stem data = Except.error ⟨true, []⟩ := by
  unfold compress_iso
  rw [hfail]

/-- Witness for C6 (amended) on the empty source. -/
theorem C6_amended_abort_witness :
    detect_iso_type [] = none ∧
      compress_iso id "g" [] = Except.error ⟨true, []⟩ :=
  ⟨rfl, C6_amended_abort id "g" [] rfl⟩

/-! Machinery for the concrete double-split run: a closed form for a run of
consecutive stored 2048-byte blocks below the split threshold. -/

theorem EncSt_ext (a b : EncSt) (h1 : a.vol1 = b.vol1) (h2 : a.vol2 = b.vol2)
    (h3 : a.vol1Open = b.vol1Open) (h4 : a.vol2Open = b.vol2Open)
    (h5 : a.opened = b.opened) (h6 : a.splitCount = b.splitCount)
    (h7 : a.writePos = b.writePos) (h8 : a.counter = b.counter)
    (h9 : a.blockIndex = b.blockIndex) (h10 : a.recs = b.recs) : a = b := by
  cases a
  cases b
  simp_all

theorem splitCheck_of_le (stem : String) (s : EncSt)
    (h : ¬ s.writePos > SPLIT_LIMIT) : splitCheck stem s = s := by
  unfold splitCheck
  rw [if_neg h]

theorem blockFlag_id (b : List Nat) : blockFlag id b = false := by
  rw [blockFlag_iff]
  simp only [id_eq]
  exact decide_eq_false_iff_not.mpr (by omega)

theorem blockData_id (b : List Nat) : blockData id b = b := by
  unfold blockData
  rw [blockFlag_id]
  simp

theorem blockEntry_id (b : List Nat) (off : Nat) :
    blockEntry id b off = off >>> CISO_ALIGN := by
  unfold blockEntry
  rw [blockFlag_id]
  simp

theorem writeBlock_eq_of (c : List Nat → List Nat) (s : EncSt)
    (raw : List Nat) :
    writeBlock c s raw =
      { s with
        vol1 := if s.splitCount = 0 then s.vol1 ++ blockData c raw else s.vol1
        vol2 := if s.splitCount = 0 then s.vol2
                else s.vol2.map (· ++ blockData c raw)
        writePos := s.writePos + (blockData c raw).length
        counter := s.counter + 1
        blockIndex := s.blockIndex.set s.counter (blockEntry c raw s.writePos)
        recs := s.recs ++
          [⟨s.splitCount, s.writePos, blockFlag c raw, blockData c raw, raw⟩] } := by
  unfold writeBlock writeCur
  dsimp only
  split
  case isTrue h0 => rfl
  case isFalse h0 => rfl

theorem idxWrite_succ (bi : List Nat) (cstart p m : Nat) :
    idxWrite bi cstart p (m + 1) =
      idxWrite (bi.set cstart (p >>> CISO_ALIGN)) (cstart + 1) (p + 2048) m :=
  rfl

theorem recsOf_cons (inc p : Nat) (b : List Nat) (t : List (List Nat)) :
    recsOf inc p (b :: t) = ⟨inc, p, false, b, b⟩ :: recsOf inc (p + 2048) t :=
  rfl

theorem encLoop_stored_run (stem : String) (bs : List (List Nat)) (s : EncSt)
    (hb : ∀ b ∈ bs, b.length = 2048)
    (ha : s.writePos % 4 = 0)
    (hs : ∀ j, j < bs.length → s.writePos + 2048 * j ≤ SPLIT_LIMIT) :
    encLoop id stem bs s =
      { s with
        vol1 := if s.splitCount = 0 then s.vol1 ++ bs.flatten else s.vol1
        vol2 := if s.splitCount = 0 then s.vol2
                else s.vol2.map (· ++ bs.flatten)
        writePos := s.writePos + 2048 * bs.length
        counter := s.counter + bs.length
        blockIndex := idxWrite s.blockIndex s.counter s.writePos bs.length
        recs := s.recs ++ recsOf s.splitCount s.writePos bs } := by
  induction bs generalizing s with
  | nil =>
    rw [show encLoop id stem [] s = s from rfl]
    apply EncSt_ext
    case h1 =>
      dsimp only
      rw [List.flatten_nil, List.append_nil, ite_self]
    case h2 =>
      dsimp only
      rw [List.flatten_nil]
      cases s.vol2 <;> simp
    case h3 => rfl
    case h4 => rfl
    case h5 => rfl
    case h6 => rfl
    case h7 => simp
    case h8 => simp
    case h9 => rfl
    case h10 => simp [recsOf]
  | cons b t ih =>
    have hb0 : b.length = 2048 := hb b (List.mem_cons_self b t)
    have hbt : ∀ x ∈ t, x.length = 2048 :=
      fun x hx => hb x (List.mem_cons_of_mem b hx)
    have hT0 : ¬ s.writePos > SPLIT_LIMIT := by
      have := hs 0 (by simp)
      omega
    have hstep : encStep id stem s b = writeBlock id s b := by
      unfold encStep
      rw [splitCheck_of_le stem s hT0, alignPad_of_aligned s ha]
    rw [encLoop_cons, hstep, writeBlock_eq_of, blockData_id, blockEntry_id,
      blockFlag_id, hb0]
    rw [ih _ hbt (by dsimp only; omega)
      (by
        intro j hj
        dsimp only
        have := hs (j + 1) (by simp only [List.length_cons]; omega)
        omega)]
    apply EncSt_ext
    case h1 =>
      dsimp only
      by_cases h0 : s.splitCount = 0
      · rw [if_pos h0, if_pos h0, if_pos h0, List.flatten_cons,
          List.append_assoc]
      · rw [if_neg h0, if_neg h0, if_neg h0]
    case h2 =>
      dsimp only
      by_cases h0 : s.splitCount = 0
      · rw [if_pos h0, if_pos h0, if_pos h0]
      · rw [if_neg h0, if_neg h0, if_neg h0, Option.map_map,
          List.flatten_cons]
        cases s.vol2 with
        | none => rfl
        | some v =>
          simp [Function.comp, List.append_assoc]
    case h3 => rfl
    case h4 => rfl
    case h5 => rfl
    case h6 => rfl
    case h7 =>
      dsimp only
      simp only [List.length_cons]
      omega
    case h8 =>
      dsimp only
      simp only [List.length_cons]
      omega
    case h9 =>
      dsimp only
      rw [List.length_cons, idxWrite_succ]
    case h10 =>
      dsimp only
      rw [recsOf_cons]
      simp

theorem splitCheck_of_gt (stem : String) (s : EncSt)
    (h : s.writePos > SPLIT_LIMIT) :
    splitCheck stem s =
      { s with vol2 := some []
               vol2Open := true
               opened := s.opened ++ [cso_name stem 2]
               splitCount := s.splitCount + 1
               writePos := 0 } := by
  unfold splitCheck
  rw [if_pos h]

theorem encStep_split_stored (stem : String) (s : EncSt) (b : List Nat)
    (hT : s.writePos > SPLIT_LIMIT) (hb : b.length = 2048) :
    encStep id stem s b =
      { s with vol2 := some b
               vol2Open := true
               opened := s.opened ++ [cso_name stem 2]
               splitCount := s.splitCount + 1
               writePos := 2048
               counter := s.counter + 1
               blockIndex := s.blockIndex.set s.counter 0
               recs := s.recs ++ [⟨s.splitCount + 1, 0, false, b, b⟩] } := by
  unfold encStep
  rw [splitCheck_of_gt stem s hT]
  rw [alignPad_of_aligned _ (by rfl)]
  rw [writeBlock_eq_of, blockData_id, blockEntry_id, blockFlag_id]
  apply EncSt_ext
  case h1 =>
    dsimp only
    rw [if_neg (Nat.succ_ne_zero _)]
  case h2 =>
    dsimp only
    rw [if_neg (Nat.succ_ne_zero _)]
    simp
  case h3 => rfl
  case h4 => rfl
  case h5 => rfl
  case h6 => rfl
  case h7 =>
    dsimp only
    omega
  case h8 => rfl
  case h9 =>
    dsimp only
    rw [show (0 : Nat) >>> CISO_ALIGN = 0 from rfl]
  case h10 => rfl

/-! Uniform 2048-byte block lists and their flattenings. -/

theorem zeroBlock_length : zeroBlock.length = 2048 := by
  unfold zeroBlock
  exact List.length_replicate _ _

theorem oneBlock_length : oneBlock.length = 2048 := by
  unfold oneBlock
  exact List.length_replicate _ _

theorem mediaMagic_length : mediaMagic.length = 20 := by
  unfold mediaMagic
  rfl

theorem magicBlock_length : magicBlock.length = 2048 := by
  unfold magicBlock
  rw [List.length_append, mediaMagic_length, List.length_replicate]

theorem flatten_len_2048 (bs : List (List Nat))
    (hb : ∀ b ∈ bs, b.length = 2048) :
    bs.flatten.length = 2048 * bs.length := by
  induction bs with
  | nil => simp
  | cons b t ih =>
    rw [List.flatten_cons, List.length_append, List.length_cons,
      hb b (List.mem_cons_self b t),
      ih (fun x hx => hb x (List.mem_cons_of_mem b hx))]
    ring

theorem flatten_drop_blocks (bs : List (List Nat))
    (hb : ∀ b ∈ bs, b.length = 2048) (i : Nat) :
    bs.flatten.drop (2048 * i) = (bs.drop i).flatten := by
  induction bs generalizing i with
  | nil => simp
  | cons b t ih =>
    cases i with
    | zero => simp
    | succ i =>
      rw [List.flatten_cons,
        drop_append_ge b t.flatten (2048 * (i + 1))
          (by rw [hb b (List.mem_cons_self b t)]; omega)]
      rw [hb b (List.mem_cons_self b t)]
      have he : 2048 * (i + 1) - 2048 = 2048 * i := by omega
      rw [he, ih (fun x hx => hb x (List.mem_cons_of_mem b hx)) i]
      rfl

theorem readBlock_flatten (bs : List (List Nat))
    (hb : ∀ b ∈ bs, b.length = 2048) (i : Nat) (hi : i < bs.length) :
    readBlock bs.flatten 0 i = bs[i] := by
  unfold readBlock
  rw [show (0 + CISO_BLOCK_SIZE * i : Nat) = 2048 * i from by
      simp [CISO_BLOCK_SIZE]]
  rw [flatten_drop_blocks bs hb i, List.drop_eq_getElem_cons hi,
    List.flatten_cons]
  rw [show (CISO_BLOCK_SIZE : Nat) = (bs[i]).length from by
      rw [hb bs[i] (List.getElem_mem hi)]
      rfl]
  exact List.take_left _ _

theorem blocksOf_flatten (bs : List (List Nat))
    (hb : ∀ b ∈ bs, b.length = 2048) :
    blocksOf bs.flatten 0 = bs := by
  have hn : (bs.flatten.length - 0) / CISO_BLOCK_SIZE = bs.length := by
    rw [Nat.sub_zero, flatten_len_2048 bs hb]
    simp [CISO_BLOCK_SIZE]
  unfold blocksOf
  rw [hn]
  apply List.ext_getElem
  · simp
  · intro i h1 h2
    simp only [List.getElem_map, List.getElem_range]
    exact readBlock_flatten bs hb i h2

/-! The segment lists of the double-split test vector. -/

theorem bigS1blocks_blocks (b : List Nat) (hb : b ∈ bigS1blocks) :
    b.length = 2048 := by
  unfold bigS1blocks at hb
  rcases List.mem_append.mp hb with h | h
  · rw [List.eq_of_mem_replicate h]
    exact zeroBlock_length
  · rcases List.mem_cons.mp h with h | h
    · rw [h]
      exact magicBlock_length
    · rw [List.eq_of_mem_replicate h]
      exact zeroBlock_length

theorem bigS1blocks_length : bigS1blocks.length = K1 := by
  have h : bigS1blocks =
      List.replicate 32 zeroBlock ++ magicBlock :: List.replicate (K1 - 33) zeroBlock := rfl
  rw [h, List.length_append, List.length_replicate, List.length_cons,
    List.length_replicate]
  have hk : K1 = 2086917 := rfl
  omega

theorem bigS2blocks_blocks (b : List Nat) (hb : b ∈ bigS2blocks) :
    b.length = 2048 := by
  unfold bigS2blocks at hb
  rw [List.eq_of_mem_replicate hb]
  exact zeroBlock_length

theorem bigS2blocks_length : bigS2blocks.length = K2 - K1 - 1 := by
  unfold bigS2blocks
  simp

theorem bigBlocks_blocks (b : List Nat) (hb : b ∈ bigBlocks) :
    b.length = 2048 := by
  unfold bigBlocks at hb
  rcases List.mem_append.mp hb with h | h
  · exact bigS1blocks_blocks b h
  · rcases List.mem_cons.mp h with h | h
    · rw [h]
      exact oneBlock_length
    · rcases List.mem_append.mp h with h | h
      · exact bigS2blocks_blocks b h
      · rcases List.mem_cons.mp h with h | h
        · rw [h]
          exact zeroBlock_length
        · exact absurd h (List.not_mem_nil b)

theorem bigBlocks_length : bigBlocks.length = NBIG := by
  have h : bigBlocks = bigS1blocks ++ oneBlock :: (bigS2blocks ++ [zeroBlock]) := rfl
  rw [h, List.length_append, List.length_cons, List.length_append,
    bigS1blocks_length, bigS2blocks_length]
  have hk : K1 = 2086917 := rfl
  have hk2 : K2 = 4182002 := rfl
  have hn : NBIG = 4182003 := rfl
  simp only [List.length_cons, List.length_nil]
  omega

theorem bigData_length : bigData.length = 2048 * NBIG := by
  unfold bigData
  rw [flatten_len_2048 bigBlocks bigBlocks_blocks, bigBlocks_length]

/-! Closed numeric values of the test-vector constants. -/

theorem P0_val : P0 = 16728040 := rfl

theorem SPLIT_LIMIT_val : SPLIT_LIMIT = 4290732032 := rfl

theorem bigInit_writePos : bigInit.writePos = P0 :=
  initSt_writePos "g" (2048 * NBIG) NBIG

theorem encLoop_append (c : List Nat → List Nat) (stem : String)
    (l1 l2 : List (List Nat)) (s : EncSt) :
    encLoop c stem (l1 ++ l2) s = encLoop c stem l2 (encLoop c stem l1 s) :=
  List.foldl_append _ _ l1 l2

theorem idxWrite_length (bi : List Nat) (cstart p m : Nat) :
    (idxWrite bi cstart p m).length = bi.length := by
  induction m generalizing bi cstart p with
  | zero => rfl
  | succ m ih => rw [idxWrite_succ, ih, List.length_set]

theorem idxWrite_getElem_lt (bi : List Nat) (cstart p m j : Nat)
    (hj : j < cstart) :
    (idxWrite bi cstart p m)[j]? = bi[j]? := by
  revert hj
  induction m generalizing bi cstart p with
  | zero =>
    intro hj
    rfl
  | succ m ih =>
    intro hj
    rw [idxWrite_succ, ih _ _ _ (by omega)]
    exact List.getElem?_set_ne (by omega)

theorem recsOf_length (inc p : Nat) (bs : List (List Nat)) :
    (recsOf inc p bs).length = bs.length := by
  induction bs generalizing p with
  | nil => rfl
  | cons b t ih => rw [recsOf_cons, List.length_cons, List.length_cons, ih]

/-! Explicit constructor forms of the intermediate states, and the
projections used later.  Each is definitional. -/

theorem bigStateA_def : bigStateA =
    { vol1 := bigInit.vol1 ++ bigS1blocks.flatten
      vol2 := bigInit.vol2
      vol1Open := bigInit.vol1Open
      vol2Open := bigInit.vol2Open
      opened := bigInit.opened
      splitCount := 0
      writePos := P0 + 2048 * K1
      counter := K1
      blockIndex := idxWrite bigInit.blockIndex 0 P0 K1
      recs := recsOf 0 P0 bigS1blocks } := rfl

theorem bigStateB_def : bigStateB =
    { vol1 := bigStateA.vol1
      vol2 := some oneBlock
      vol1Open := bigStateA.vol1Open
      vol2Open := true
      opened := bigStateA.opened ++ [cso_name "g" 2]
      splitCount := 1
      writePos := 2048
      counter := K1 + 1
      blockIndex := bigStateA.blockIndex.set K1 0
      recs := bigStateA.recs ++ [⟨1, 0, false, oneBlock, oneBlock⟩] } := rfl

theorem bigStateC_def : bigStateC =
    { vol1 := bigStateB.vol1
      vol2 := bigStateB.vol2.map (fun x => x ++ bigS2blocks.flatten)
      vol1Open := bigStateB.vol1Open
      vol2Open := bigStateB.vol2Open
      opened := bigStateB.opened
      splitCount := 1
      writePos := 2048 + 2048 * (K2 - K1 - 1)
      counter := K1 + 1 + (K2 - K1 - 1)
      blockIndex := idxWrite bigStateB.blockIndex (K1 + 1) 2048 (K2 - K1 - 1)
      recs := bigStateB.recs ++ recsOf 1 2048 bigS2blocks } := rfl

theorem bigStateD_def : bigStateD =
    { vol1 := bigStateC.vol1
      vol2 := some zeroBlock
      vol1Open := bigStateC.vol1Open
      vol2Open := true
      opened := bigStateC.opened ++ [cso_name "g" 2]
      splitCount := 2
      writePos := 2048
      counter := K1 + 1 + (K2 - K1 - 1) + 1
      blockIndex := bigStateC.blockIndex.set (K1 + 1 + (K2 - K1 - 1)) 0
      recs := bigStateC.recs ++ [⟨2, 0, false, zeroBlock, zeroBlock⟩] } := rfl

theorem bigStateA_blockIndex :
    bigStateA.blockIndex = idxWrite bigInit.blockIndex 0 P0 K1 := by
  rw [bigStateA_def]

theorem bigStateB_blockIndex :
    bigStateB.blockIndex = bigStateA.blockIndex.set K1 0 := by
  rw [bigStateB_def]

theorem bigStateC_blockIndex :
    bigStateC.blockIndex =
      idxWrite bigStateB.blockIndex (K1 + 1) 2048 (K2 - K1 - 1) := by
  rw [bigStateC_def]

theorem bigStateD_blockIndex :
    bigStateD.blockIndex =
      bigStateC.blockIndex.set (K1 + 1 + (K2 - K1 - 1)) 0 := by
  rw [bigStateD_def]

theorem bigStateA_recs : bigStateA.recs = recsOf 0 P0 bigS1blocks := by
  rw [bigStateA_def]

theorem bigStateB_recs :
    bigStateB.recs = bigStateA.recs ++ [⟨1, 0, false, oneBlock, oneBlock⟩] := by
  rw [bigStateB_def]

theorem bigStateC_recs :
    bigStateC.recs = bigStateB.recs ++ recsOf 1 2048 bigS2blocks := by
  rw [bigStateC_def]

theorem bigStateD_recs :
    bigStateD.recs = bigStateC.recs ++ [⟨2, 0, false, zeroBlock, zeroBlock⟩] := by
  rw [bigStateD_def]

theorem initSt_blockIndex (stem : String) (tb n : Nat) :
    (initSt stem tb n).blockIndex = List.replicate (n + 1) 0 := rfl

theorem bigInit_blockIndex : bigInit.blockIndex = List.replicate (NBIG + 1) 0 := by
  rw [show bigInit = initSt "g" (2048 * NBIG) NBIG from rfl, initSt_blockIndex]

/-! Phase theorems of the double-split run: the loop visits the states
`bigInit → bigStateA → bigStateB → bigStateC → bigStateD`. -/

theorem bigA : encLoop id "g" bigS1blocks bigInit = bigStateA := by
  rw [encLoop_stored_run "g" bigS1blocks bigInit bigS1blocks_blocks
    (by rw [bigInit_writePos, P0_val])
    (by
      intro j hj
      rw [bigS1blocks_length] at hj
      rw [bigInit_writePos, P0_val, SPLIT_LIMIT_val]
      have hk : K1 = 2086917 := rfl
      omega)]
  rw [bigStateA_def]
  rw [if_pos (show bigInit.splitCount = 0 from rfl),
    if_pos (show bigInit.splitCount = 0 from rfl),
    bigInit_writePos, bigS1blocks_length,
    show bigInit.counter = 0 from rfl, Nat.zero_add,
    show bigInit.recs = ([] : List BlockRec) from rfl,
    show bigInit.splitCount = 0 from rfl, List.nil_append]

theorem bigB : encStep id "g" bigStateA oneBlock = bigStateB := by
  rw [encStep_split_stored "g" bigStateA oneBlock
    (by
      have hw : bigStateA.writePos = P0 + 2048 * K1 := rfl
      rw [hw, P0_val, SPLIT_LIMIT_val]
      have hk : K1 = 2086917 := rfl
      omega)
    oneBlock_length]
  rw [bigStateB_def]
  rw [show bigStateA.splitCount = 0 from rfl, Nat.zero_add,
    show bigStateA.counter = K1 from rfl]

theorem bigC : encLoop id "g" bigS2blocks bigStateB = bigStateC := by
  rw [encLoop_stored_run "g" bigS2blocks bigStateB bigS2blocks_blocks
    (by rw [show bigStateB.writePos = 2048 from rfl])
    (by
      intro j hj
      rw [bigS2blocks_length] at hj
      rw [show bigStateB.writePos = 2048 from rfl, SPLIT_LIMIT_val]
      have hk : K1 = 2086917 := rfl
      have hk2 : K2 = 4182002 := rfl
      omega)]
  rw [bigStateC_def]
  have hne : ¬ bigStateB.splitCount = 0 := fun h => Nat.one_ne_zero h
  rw [if_neg hne, if_neg hne,
    show bigStateB.writePos = 2048 from rfl, bigS2blocks_length,
    show bigStateB.counter = K1 + 1 from rfl,
    show bigStateB.splitCount = 1 from rfl]

theorem bigD : encStep id "g" bigStateC zeroBlock = bigStateD := by
  rw [encStep_split_stored "g" bigStateC zeroBlock
    (by
      have hw : bigStateC.writePos = 2048 + 2048 * (K2 - K1 - 1) := rfl
      rw [hw, SPLIT_LIMIT_val]
      have hk : K1 = 2086917 := rfl
      have hk2 : K2 = 4182002 := rfl
      omega)
    zeroBlock_length]
  rw [bigStateD_def]
  rw [show bigStateC.splitCount = 1 from rfl,
    show bigStateC.counter = K1 + 1 + (K2 - K1 - 1) from rfl,
    show (1 + 1 : Nat) = 2 from rfl]

/-! Composing the phases: the whole loop on `bigData`. -/

theorem bigBlocksOf : blocksOf bigData 0 = bigBlocks :=
  blocksOf_flatten bigBlocks bigBlocks_blocks

theorem bigNdiv : (bigData.length - 0) / CISO_BLOCK_SIZE = NBIG := by
  rw [Nat.sub_zero, bigData_length, show (CISO_BLOCK_SIZE : Nat) = 2048 from rfl]
  exact Nat.mul_div_cancel_left NBIG (by norm_num)

theorem bigInit_eq :
    initSt "g" (bigData.length - 0) ((bigData.length - 0) / CISO_BLOCK_SIZE) =
      bigInit := by
  rw [bigNdiv, Nat.sub_zero, bigData_length]
  rfl

theorem bigBlocks_split :
    bigBlocks = bigS1blocks ++ oneBlock :: (bigS2blocks ++ [zeroBlock]) := rfl

theorem bigLoopOut : loopOut id "g" bigData 0 = bigStateD := by
  unfold loopOut
  rw [bigBlocksOf, bigInit_eq, bigBlocks_split, encLoop_append, bigA,
    encLoop_cons, bigB, encLoop_append, bigC, encLoop_cons, bigD]
  rfl

theorem bigTakeK1 : (blocksOf bigData 0).take K1 = bigS1blocks := by
  rw [bigBlocksOf, bigBlocks_split]
  exact List.take_left' bigS1blocks_length

theorem bigTakeK1p1 :
    (blocksOf bigData 0).take (K1 + 1) = bigS1blocks ++ [oneBlock] := by
  rw [bigBlocksOf,
    show bigBlocks = (bigS1blocks ++ [oneBlock]) ++ (bigS2blocks ++ [zeroBlock])
      from by rw [List.append_assoc]; rfl]
  exact List.take_left' (by rw [List.length_append, bigS1blocks_length]; rfl)

theorem bigLoopStateK1 : loopState id "g" bigData 0 K1 = bigStateA := by
  unfold loopState
  rw [bigTakeK1, bigInit_eq, bigA]

theorem bigLoopStateK1p1 : loopState id "g" bigData 0 (K1 + 1) = bigStateB := by
  unfold loopState
  rw [bigTakeK1p1, bigInit_eq, encLoop_append, bigA, encLoop_cons, bigB]
  rfl

/-! The finalized output of the `bigData` run. -/

theorem bigEncodeRun :
    encodeRun id "g" bigData 0 = finalizeVols (postLoop NBIG bigStateD) := by
  unfold encodeRun
  rw [bigNdiv, bigLoopOut]

theorem pad_zeroBlock : pad_file_size zeroBlock = List.replicate 3072 0 := by
  unfold pad_file_size
  rw [zeroBlock_length,
    show (0x400 - (2048 &&& 0x3FF) : Nat) = 1024 from rfl,
    show zeroBlock = List.replicate 2048 0 from rfl, ← List.replicate_add]

theorem bigVol2 :
    (encodeRun id "g" bigData 0).vol2 = some (List.replicate 3072 0) := by
  rw [bigEncodeRun, finalizeVols_vol2, postLoop_vol2,
    show bigStateD.vol2 = some zeroBlock from rfl, Option.map_some', pad_zeroBlock]

theorem bigEntryK1 : (encodeRun id "g" bigData 0).blockIndex.getD K1 0 = 0 := by
  have hk : K1 = 2086917 := rfl
  have hk2 : K2 = 4182002 := rfl
  have hn : NBIG = 4182003 := rfl
  have hlen : bigStateA.blockIndex.length = NBIG + 1 := by
    rw [bigStateA_blockIndex, idxWrite_length, bigInit_blockIndex,
      List.length_replicate]
  rw [bigEncodeRun, finalizeVols_blockIndex, postLoop_blockIndex,
    List.getD_eq_getElem?_getD,
    List.getElem?_set_ne (show NBIG ≠ K1 by omega),
    bigStateD_blockIndex,
    List.getElem?_set_ne (show K1 + 1 + (K2 - K1 - 1) ≠ K1 by omega),
    bigStateC_blockIndex,
    idxWrite_getElem_lt _ _ _ _ _ (by omega),
    bigStateB_blockIndex,
    List.getElem?_set_self (by rw [hlen]; omega)]
  rfl

theorem bigRecK1 :
    (encodeRun id "g" bigData 0).recs.getD K1 ⟨0, 0, false, [], []⟩ =
      ⟨1, 0, false, oneBlock, oneBlock⟩ := by
  have hk : K1 = 2086917 := rfl
  rw [bigEncodeRun, finalizeVols_recs, postLoop_recs,
    bigStateD_recs, bigStateC_recs, bigStateB_recs, bigStateA_recs,
    List.getD_eq_getElem?_getD,
    List.getElem?_append_left (by
      rw [List.length_append, List.length_append, recsOf_length,
        bigS1blocks_length, List.length_singleton]
      omega),
    List.getElem?_append_left (by
      rw [List.length_append, recsOf_length, bigS1blocks_length,
        List.length_singleton]
      omega),
    List.getElem?_append_right (by
      rw [recsOf_length, bigS1blocks_length]),
    recsOf_length, bigS1blocks_length, Nat.sub_self]
  rfl

/-! Detection on `bigData`, and the surviving raw block K1. -/

theorem bigData_def : bigData = bigBlocks.flatten := rfl

theorem bigBlocks_expand :
    bigBlocks = List.replicate 32 zeroBlock ++
      (magicBlock :: (List.replicate (K1 - 33) zeroBlock ++
        (oneBlock :: (bigS2blocks ++ [zeroBlock])))) := by
  rw [bigBlocks_split,
    show bigS1blocks = List.replicate 32 zeroBlock ++
      magicBlock :: List.replicate (K1 - 33) zeroBlock from rfl,
    List.append_assoc]
  rfl

theorem magicBlock_expand : magicBlock = mediaMagic ++ List.replicate 2028 0 := rfl

theorem bigBlocks_drop32 :
    bigBlocks.drop 32 =
      magicBlock :: (List.replicate (K1 - 33) zeroBlock ++
        (oneBlock :: (bigS2blocks ++ [zeroBlock]))) := by
  rw [bigBlocks_expand]
  exact List.drop_left' (List.length_replicate 32 zeroBlock)

theorem bigMagicAt : readBytes bigData 0x10000 20 = mediaMagic := by
  unfold readBytes
  rw [bigData_def, show (0x10000 : Nat) = 2048 * 32 from rfl,
    flatten_drop_blocks bigBlocks bigBlocks_blocks 32,
    bigBlocks_drop32, List.flatten_cons, magicBlock_expand, List.append_assoc]
  exact List.take_left' mediaMagic_length

theorem bigBlocks_drop198176 :
    bigBlocks.drop 198176 =
      zeroBlock :: (List.replicate 1888740 zeroBlock ++
        (oneBlock :: (bigS2blocks ++ [zeroBlock]))) := by
  have hk : K1 = 2086917 := rfl
  rw [bigBlocks_expand,
    drop_append_ge (List.replicate 32 zeroBlock) _ 198176
      (by rw [List.length_replicate]; omega),
    List.length_replicate,
    show (198176 - 32 : Nat) = 198143 + 1 from rfl,
    List.drop_succ_cons,
    List.drop_append_of_le_length (by rw [List.length_replicate]; omega),
    List.drop_replicate,
    show (K1 - 33 - 198143 : Nat) = 1888740 + 1 from by omega,
    List.replicate_succ, List.cons_append]

theorem zeroBlock_expand :
    zeroBlock = List.replicate 20 0 ++ List.replicate 2028 0 := by
  rw [← List.replicate_add]
  rfl

theorem bigNoRedump : ¬ readBytes bigData 0x18310000 20 = mediaMagic := by
  unfold readBytes
  rw [bigData_def, show (0x18310000 : Nat) = 2048 * 198176 from rfl,
    flatten_drop_blocks bigBlocks bigBlocks_blocks 198176,
    bigBlocks_drop198176, List.flatten_cons, zeroBlock_expand,
    List.append_assoc,
    List.take_left' (List.length_replicate 20 0)]
  decide

theorem bigDetect : detect_iso_type bigData = some 0 := by
  unfold detect_iso_type
  rw [if_neg bigNoRedump, if_pos bigMagicAt]

theorem bigBlocks_dropK1 :
    bigBlocks.drop K1 = oneBlock :: (bigS2blocks ++ [zeroBlock]) := by
  rw [bigBlocks_split]
  exact List.drop_left' bigS1blocks_length

theorem bigBlockK1 : readBlock bigData 0 K1 = oneBlock := by
  unfold readBlock
  have h0 : (0 + CISO_BLOCK_SIZE * K1 : Nat) = 2048 * K1 := by
    rw [Nat.zero_add, show (CISO_BLOCK_SIZE : Nat) = 2048 from rfl]
  rw [h0, bigData_def, flatten_drop_blocks bigBlocks bigBlocks_blocks K1,
    bigBlocks_dropK1, List.flatten_cons]
  exact List.take_left' (by rw [oneBlock_length]; rfl)

theorem decode_zero :
    decodeBlock (List.replicate 3072 0) 0 2048 id = List.replicate 2048 0 := by
  show (if (0 : Nat) &&& 0x80000000 ≠ 0 then
      id (((List.replicate 3072 0).drop (((0 : Nat) &&& 0x7FFFFFFF) <<< CISO_ALIGN)).take 2048)
    else ((List.replicate 3072 0).drop (((0 : Nat) &&& 0x7FFFFFFF) <<< CISO_ALIGN)).take 2048) =
    List.replicate 2048 0
  rw [if_neg (by decide),
    show (((0 : Nat) &&& 0x7FFFFFFF) <<< CISO_ALIGN) = 0 from rfl,
    List.drop_zero, List.take_replicate,
    show (2048 ⊓ 3072 : Nat) = 2048 from rfl]

theorem replicate_zero_ne_one :
    List.replicate 2048 (0 : Nat) ≠ List.replicate 2048 1 := by
  intro h
  have h0 : (List.replicate 2048 (0 : Nat)).headD 2 =
      (List.replicate 2048 (1 : Nat)).headD 2 :=
    congrArg (fun l => l.headD 2) h
  rw [show (List.replicate 2048 (0 : Nat)).headD 2 = 0 from rfl,
    show (List.replicate 2048 (1 : Nat)).headD 2 = 1 from rfl] at h0
  exact Nat.zero_ne_one h0

theorem compress_iso_ok (c : List Nat → List Nat) (stem : String)
    (data : List Nat) (off : Nat) (h : detect_iso_type data = some off) :
    compress_iso c stem data = Except.ok (encodeRun c stem data off) := by
  unfold compress_iso
  rw [h]

/-- Counterexample to C5 as stated: on the `bigData` source, after the K1
blocks of the first phase the cursor is already past the split threshold —
so the block whose projected write crossed the threshold was written
entirely to the *old* volume (no split happened before it, `splitCount = 0`
with the cursor above the limit).  The split only happens at the top of the
next iteration, and it does not close the first volume: after block K1 the
first volume's handle is still open, and the only names ever opened are
`g.1.cso` and `g.2.cso`. -/
theorem C5_counterexample :
    (loopState id "g" bigData 0 K1).splitCount = 0 ∧
    (loopState id "g" bigData 0 K1).writePos > SPLIT_LIMIT ∧
    (loopState id "g" bigData 0 (K1 + 1)).splitCount = 1 ∧
    (loopState id "g" bigData 0 (K1 + 1)).vol1Open = true ∧
    (loopState id "g" bigData 0 (K1 + 1)).opened =
      [cso_name "g" 1, cso_name "g" 2] := by
  refine ⟨?_, ?_, ?_, ?_, ?_⟩
  · rw [bigLoopStateK1]
    rfl
  · rw [bigLoopStateK1]
    have hw : bigStateA.writePos = P0 + 2048 * K1 := rfl
    rw [hw, P0_val, SPLIT_LIMIT_val]
    have hk : K1 = 2086917 := rfl
    omega
  · rw [bigLoopStateK1p1]
    rfl
  · rw [bigLoopStateK1p1]
    rfl
  · rw [bigLoopStateK1p1]
    rfl

/-- Counterexample to C7 as stated: right after the split iteration K1 of
the `bigData` run, a split has happened (`splitCount = 1`) and both the
first volume's handle and the second volume's handle are open — the code
never closes `fout_1` at the switch (it still needs it for the final index
rewrite), so two destination handles are open concurrently. -/
theorem C7_counterexample :
    (loopState id "g" bigData 0 (K1 + 1)).splitCount = 1 ∧
    (loopState id "g" bigData 0 (K1 + 1)).vol1Open = true ∧
    (loopState id "g" bigData 0 (K1 + 1)).vol2Open = true := by
  refine ⟨?_, ?_, ?_⟩
  · rw [bigLoopStateK1p1]
    rfl
  · rw [bigLoopStateK1p1]
    rfl
  · rw [bigLoopStateK1p1]
    rfl

/-- Counterexample to C2 as stated: on the `bigData` source (compressor
`id`, decompressor `id`, an inverse pair), detection succeeds and the run
completes, block K1 is raw (`flag = false`) with recorded entry 0 in the
second volume (volume instance 1 in its record), but the second split
reopened `.2.cso` truncated, so the final `.2.cso` contents hold block K2's
zero bytes; decoding block K1 via its recorded entry from that volume per
the spec's procedure yields zeros, not the original `1`-bytes — the
round-trip fails for this block and flag state. -/
theorem C2_counterexample :
    detect_iso_type bigData = some 0 ∧
    compress_iso id "g" bigData = Except.ok (encodeRun id "g" bigData 0) ∧
    readBlock bigData 0 K1 = oneBlock ∧
    (encodeRun id "g" bigData 0).recs.getD K1 ⟨0, 0, false, [], []⟩ =
      ⟨1, 0, false, oneBlock, oneBlock⟩ ∧
    (encodeRun id "g" bigData 0).blockIndex.getD K1 0 = 0 ∧
    (encodeRun id "g" bigData 0).vol2 = some (List.replicate 3072 0) ∧
    decodeBlock (List.replicate 3072 0) 0 2048 id ≠ oneBlock := by
  refine ⟨bigDetect, compress_iso_ok id "g" bigData 0 bigDetect, bigBlockK1,
    bigRecK1, bigEntryK1, bigVol2, ?_⟩
  rw [decode_zero, show oneBlock = List.replicate 2048 1 from rfl]
  exact replicate_zero_ne_one

/-- Counterexample to C6 as stated: on a source whose detection fails, the
run does abort, but the abort state records that the first output volume
file `stem.1.cso` has already been created (opened for writing, hence
truncated) before detection ran — contradicting "no output file has been
created at the moment of the abort". -/
theorem C6_counterexample :
    detect_iso_type [] = none ∧
    compress_iso id "g" [] =
      Except.error { vol1Created := true, vol1 := [] } :=
  ⟨rfl, rfl⟩

/-- Witness for C1 at a concrete state and block. -/
theorem C1_store_or_compress_witness :
    ((List.replicate 2048 0 : List Nat).length = 2048 ∧
      ((initSt "g" 2048 1).splitCount = 0 ∨ (initSt "g" 2048 1).vol2.isSome)) ∧
    C1Spec id "g" (initSt "g" 2048 1) (List.replicate 2048 0) :=
  ⟨⟨List.length_replicate 2048 0, Or.inl rfl⟩,
    C1_store_or_compress id "g" (initSt "g" 2048 1) (List.replicate 2048 0)
      (List.length_replicate 2048 0) (Or.inl rfl)⟩

end Ciso
